import Mathlib

/-!
Verification development for the generic scalar-function execution pipeline of
`dbms/src/Functions/IFunction.cpp`: the layer that adapts per-type kernels
(dense-column computations) to nullable, constant and dictionary-encoded
argument columns, plus the type-level mirror (`getReturnType`).

The embedding models columns over a single scalar element domain (`Int`),
which is enough to express every control- and data-flow decision the pipeline
makes (the pipeline never inspects element values, only column shapes).
-/

set_option maxHeartbeats 1000000

abbrev Val := Int

/-- Runtime column representations, mirroring the column variants the pipeline
distinguishes: dense columns, the value-less `ColumnNothing`, `ColumnNullable`
(inner column plus null map), `ColumnConst` (logical length plus one-row data
column) and `ColumnWithDictionary` (unique values plus index array). -/
inductive Column where
  | dense (data : List Val)
  | nothingCol (len : Nat)
  | nullableCol (inner : Column) (nullMap : List Bool)
  | constCol (len : Nat) (inner : Column)
  | dictCol (unique : Column) (indexes : List Nat)
deriving DecidableEq

instance : Inhabited Column := ⟨Column.dense []⟩

/-- `IColumn::size`. -/
def Column.size : Column → Nat
  | .dense d => d.length
  | .nothingCol n => n
  | .nullableCol inner _ => inner.size
  | .constCol n _ => n
  | .dictCol _ idx => idx.length

/-- `IColumn::isColumnConst`. -/
def Column.isColumnConst : Column → Bool
  | .constCol _ _ => true
  | .dense _ => false
  | .nothingCol _ => false
  | .nullableCol _ _ => false
  | .dictCol _ _ => false

/-- `IColumn::isColumnNullable`. -/
def Column.isColumnNullable : Column → Bool
  | .nullableCol _ _ => true
  | .dense _ => false
  | .nothingCol _ => false
  | .constCol _ _ => false
  | .dictCol _ _ => false

/-- `checkAndGetColumn<ColumnWithDictionary>` succeeding. -/
def Column.isDictColumn : Column → Bool
  | .dictCol _ _ => true
  | .dense _ => false
  | .nothingCol _ => false
  | .nullableCol _ _ => false
  | .constCol _ _ => false

/-- `IColumn::isNullAt`. -/
def Column.isNullAt : Column → Nat → Bool
  | .dense _, _ => false
  | .nothingCol _, _ => false
  | .nullableCol _ nm, i => nm.getD i false
  | .constCol _ inner, _ => inner.isNullAt 0
  | .dictCol u idx, i => u.isNullAt (idx.getD i 0)

/-- `IColumn::onlyNull`: a constant column whose single value is null. -/
def Column.onlyNull : Column → Bool
  | .constCol _ inner => inner.isNullAt 0
  | .dense _ => false
  | .nothingCol _ => false
  | .nullableCol _ _ => false
  | .dictCol _ _ => false

/-- The logical null indicator of row `i` (the bit the null-handling layer
merges): the null-map bit for a nullable column, broadcast for constants. -/
def Column.nullBitAt : Column → Nat → Bool
  | .dense _, _ => false
  | .nothingCol _, _ => false
  | .nullableCol _ nm, i => nm.getD i false
  | .constCol _ inner, _ => inner.nullBitAt 0
  | .dictCol u idx, i => u.nullBitAt (idx.getD i 0)

/-- The raw (null-ignoring) scalar stored at row `i`. -/
def Column.valAt : Column → Nat → Val
  | .dense d, i => d.getD i 0
  | .nothingCol _, _ => 0
  | .nullableCol inner _, i => inner.valAt i
  | .constCol _ inner, _ => inner.valAt 0
  | .dictCol u idx, i => u.valAt (idx.getD i 0)

/-- Row-by-row logical contents of a column: `none` marks a null row. -/
def Column.materialize : Column → List (Option Val)
  | .dense d => d.map some
  | .nothingCol n => List.replicate n none
  | .nullableCol inner nm =>
      (List.range inner.size).map
        (fun i => if nm.getD i false then none else inner.materialize.getD i none)
  | .constCol n inner => List.replicate n (inner.materialize.getD 0 none)
  | .dictCol u idx => idx.map (fun j => u.materialize.getD j none)

/-- Replicate row 0 of a (one-row) column `n` times, per variant;
this is what expanding a constant's data column does. -/
def Column.replicateFirst : Column → Nat → Column
  | .dense d, n => .dense (List.replicate n (d.headD 0))
  | .nothingCol _, n => .nothingCol n
  | .nullableCol inner nm, n => .nullableCol (inner.replicateFirst n) (List.replicate n (nm.headD false))
  | .constCol _ inner, n => .constCol n inner
  | .dictCol u idx, n => .dictCol u (List.replicate n (idx.headD 0))

/-- Modelled from the spec: `IColumn::convertToFullColumnIfConst` (ColumnConst
is outside src): a constant of length `n` expands to its data row repeated
`n` times; other columns are returned unchanged. -/
def Column.convertToFullColumnIfConst : Column → Column
  | .constCol n inner => inner.replicateFirst n
  | .dense d => .dense d
  | .nothingCol m => .nothingCol m
  | .nullableCol i nm => .nullableCol i nm
  | .dictCol u idx => .dictCol u idx

/-- Modelled from the spec: `ColumnConst::cloneResized` (outside src): a
constant column keeps its data and changes its logical length. Only the
constant case is exercised by the pipeline. -/
def Column.cloneResized : Column → Nat → Column
  | .constCol _ inner, m => .constCol m inner
  | .dense d, _ => .dense d
  | .nothingCol k, _ => .nothingCol k
  | .nullableCol i nm, _ => .nullableCol i nm
  | .dictCol u idx, _ => .dictCol u idx

/-- Select rows of a column by an index list (dictionary expansion). -/
def Column.selectRows : Column → List Nat → Column
  | .dense d, idx => .dense (idx.map (fun j => d.getD j 0))
  | .nothingCol _, idx => .nothingCol idx.length
  | .nullableCol inner nm, idx => .nullableCol (inner.selectRows idx) (idx.map (fun j => nm.getD j false))
  | .constCol _ inner, idx => .constCol idx.length inner
  | .dictCol u sub, idx => .dictCol u (idx.map (fun j => sub.getD j 0))

/-- Modelled from the spec: `ColumnWithDictionary::convertToFullColumn`
(outside src): expand to dense form, one value per row, via the index array. -/
def Column.convertToFullColumn : Column → Column
  | .dictCol u idx => u.selectRows idx
  | .dense d => .dense d
  | .nothingCol m => .nothingCol m
  | .nullableCol i nm => .nullableCol i nm
  | .constCol k i => .constCol k i

/-- Modelled from the spec: the `ColumnConst` constructor (outside src)
squashes constants of constants, so `ColumnConst::create` wraps the fully
unwrapped data column. -/
def ColumnConst.create : Column → Nat → Column
  | .constCol _ inner, n => ColumnConst.create inner n
  | .dense d, n => .constCol n (.dense d)
  | .nothingCol m, n => .constCol n (.nothingCol m)
  | .nullableCol i nm, n => .constCol n (.nullableCol i nm)
  | .dictCol u idx, n => .constCol n (.dictCol u idx)

/-- Modelled from the spec: `makeNullable` on columns (outside src): wrap a
column in Nullable with an all-false null map; already-nullable columns are
returned unchanged, constants are rebuilt around their nullable data. -/
def makeNullableColumn : Column → Column
  | .nullableCol inner nm => .nullableCol inner nm
  | .constCol n (.nullableCol i nm) => ColumnConst.create (.nullableCol i nm) n
  | .constCol n (.dense d) =>
      ColumnConst.create (.nullableCol (.dense d) (List.replicate (Column.dense d).size false)) n
  | .constCol n (.nothingCol m) =>
      ColumnConst.create (.nullableCol (.nothingCol m) (List.replicate m false)) n
  | .constCol n (.constCol k i) =>
      ColumnConst.create (.nullableCol (.constCol k i) (List.replicate k false)) n
  | .constCol n (.dictCol u idx) =>
      ColumnConst.create (.nullableCol (.dictCol u idx) (List.replicate idx.length false)) n
  | .dense d => .nullableCol (.dense d) (List.replicate (Column.dense d).size false)
  | .nothingCol m => .nullableCol (.nothingCol m) (List.replicate m false)
  | .dictCol u idx => .nullableCol (.dictCol u idx) (List.replicate idx.length false)

/-- Structural well-formedness of a column: null maps have the inner length,
constants hold one non-constant row, dictionary indexes are in range, and
nullable/constant wrappers are not nested the way the engine forbids. -/
def Column.WF : Column → Bool
  | .dense _ => true
  | .nothingCol _ => true
  | .nullableCol inner nm =>
      inner.WF && nm.length == inner.size && !inner.isColumnNullable && !inner.isColumnConst
  | .constCol _ inner => inner.WF && inner.size == 1 && !inner.isColumnConst
  | .dictCol u idx =>
      u.WF && !u.isColumnConst && !u.isDictColumn && idx.all (fun j => j < u.size)

/-- Logical data types mirroring the column variants: a single ordinary
element type, `Nothing`, `Nullable(T)` and `WithDictionary(T, index type)`.
Index types are represented by their width; their least supertype is the
maximum width. -/
inductive DataType where
  | base
  | nothing
  | nullable (t : DataType)
  | withDict (inner : DataType) (idxWidth : Nat)
deriving DecidableEq

instance : Inhabited DataType := ⟨DataType.base⟩

/-- `IDataType::isNullable`. -/
def DataType.isNullable : DataType → Bool
  | .nullable _ => true
  | .base => false
  | .nothing => false
  | .withDict _ _ => false

/-- Is a type exactly the `Nothing` type? -/
def DataType.isNothingType : DataType → Bool
  | .nothing => true
  | .base => false
  | .nullable _ => false
  | .withDict _ _ => false

/-- Modelled from the spec: the always-null type test `IDataType::onlyNull`
(DataTypeNullable/DataTypeNothing are outside src). The always-null type is
`Nothing`, bare or wrapped in `Nullable`. -/
def DataType.onlyNull : DataType → Bool
  | .nothing => true
  | .nullable t => t.isNothingType
  | .base => false
  | .withDict _ _ => false

/-- `typeid_cast<const DataTypeWithDictionary *>` succeeding. -/
def DataType.isWithDict : DataType → Bool
  | .withDict _ _ => true
  | .base => false
  | .nothing => false
  | .nullable _ => false

/-- `DataTypeWithDictionary::getDictionaryType`. -/
def DataType.dictionaryType : DataType → DataType
  | .withDict t _ => t
  | .base => .base
  | .nothing => .nothing
  | .nullable t => .nullable t

/-- `DataTypeWithDictionary::getIndexesType`, as a width. -/
def DataType.dictIndexWidth : DataType → Option Nat
  | .withDict _ w => some w
  | .base => none
  | .nothing => none
  | .nullable _ => none

/-- Modelled from the spec: `makeNullable` on types (outside src). -/
def makeNullableType : DataType → DataType
  | .nullable t => .nullable t
  | .base => .nullable .base
  | .nothing => .nullable .nothing
  | .withDict t w => .nullable (.withDict t w)

/-- The single default row of a freshly created column of a type. -/
def DataType.defaultSingleton : DataType → Column
  | .base => .dense [0]
  | .nothing => .nothingCol 1
  | .nullable t => .nullableCol t.defaultSingleton [true]
  | .withDict t _ => .dictCol t.defaultSingleton [0]

/-- The one-row column obtained by inserting `Null` into a fresh column of a
type (only meaningful for types that can hold nulls). -/
def DataType.singleNullOf : DataType → Column
  | .base => .dense [0]
  | .nothing => .nothingCol 1
  | .nullable t => .nullableCol t.defaultSingleton [true]
  | .withDict t _ => .dictCol t.singleNullOf [0]

/-- Modelled from the spec: `IDataType::createColumnConst(n, Null())` (outside
src): build a fresh column of the type, insert one null, wrap in a constant of
length `n`. -/
def createColumnConstNull (t : DataType) (n : Nat) : Column :=
  ColumnConst.create t.singleNullOf n

/-- Modelled from the spec: `IDataType::createColumn` (outside src): an empty
column of the type's runtime variant. -/
def DataType.createColumn : DataType → Column
  | .base => .dense []
  | .nothing => .nothingCol 0
  | .nullable t => .nullableCol t.createColumn []
  | .withDict t _ => .dictCol t.createColumn []

/-- Does a runtime column have the shape its declared type announces?
(Constants are transparent: a constant matches whatever its data row
matches.) -/
def columnMatchesType : Column → DataType → Bool
  | .dense _, .base => true
  | .nothingCol _, .nothing => true
  | .nullableCol inner _, .nullable t => columnMatchesType inner t
  | .constCol _ inner, t => columnMatchesType inner t
  | .dictCol u _, .withDict t _ => columnMatchesType u t
  | _, _ => false

/-- Well-formed declared types: no Nullable directly inside Nullable, no
dictionary directly inside Nullable or inside another dictionary. -/
def DataType.WFt : DataType → Bool
  | .base => true
  | .nothing => true
  | .nullable t => t.WFt && !t.isNullable && !t.isWithDict
  | .withDict t _ => t.WFt && !t.isWithDict

/-- One entry of a row batch: an optional column (the result slot starts
unpopulated), its declared type, and its name. -/
structure ColumnWithTypeAndName where
  column : Option Column
  type : DataType
  name : String
deriving DecidableEq

instance : Inhabited ColumnWithTypeAndName := ⟨⟨none, DataType.base, ""⟩⟩

/-- A row batch (`Block`): entries addressed by integer position. -/
abbrev Block := List ColumnWithTypeAndName

/-- `Block::getByPosition`. -/
def getByPosition (block : Block) (i : Nat) : ColumnWithTypeAndName :=
  block.getD i default

/-- The column stored at a position (defaulting to an empty dense column for
an unpopulated slot; the pipeline only reads populated argument slots). -/
def columnAt (block : Block) (i : Nat) : Column :=
  (getByPosition block i).column.getD default

/-- Overwrite only the `column` field of the entry at a position,
as the pipeline's `block.getByPosition(result).column = ...` writes do. -/
def setColumn (block : Block) (i : Nat) (c : Column) : Block :=
  block.set i { getByPosition block i with column := some c }

/-- Modelled from the spec: `Block::rows` (outside src): the size of the
first populated column of the batch. -/
def blockRows : Block → Nat
  | [] => 0
  | e :: rest =>
      match e.column with
      | some c => c.size
      | none => blockRows rest

/-- The fault taxonomy of the pipeline (plus fuel exhaustion of the shallow
embedding's bounded recursion, which no theorem relies on). -/
inductive Err where
  | numberOfArgumentsDoesntMatch
  | illegalColumn
  | logicalError
  | fuelExhausted
deriving DecidableEq

/-- A function kernel together with its capability flags, as consumed by
`PreparedFunctionImpl` / `FunctionBuilderImpl` (IFunction.h contract). The
kernel's `executeImpl` receives the batch and returns the updated batch or a
fault. -/
structure IFunction where
  name : String
  useDefaultImplementationForNulls : Bool
  useDefaultImplementationForConstants : Bool
  useDefaultImplementationForColumnsWithDictionary : Bool
  getArgumentsThatAreAlwaysConstant : List Nat
  isVariadic : Bool
  getNumberOfArguments : Nat
  executeImpl : Block → List Nat → Nat → Nat → Except Err Block
  getReturnTypeImpl : List ColumnWithTypeAndName → Except Err DataType

/-- Position-wise OR of a second null map into a first, over the first map's
positions (the merge loop of `wrapInNullable`). -/
def orNullMaps (res src : List Bool) : List Bool :=
  (List.range res.length).map (fun i => res.getD i false || src.getD i false)

/-- The argument loop of `wrapInNullable` (IFunction.cpp lines 61-95):
walks the arguments accumulating the merged null map; `Sum.inl` is the
constant-null short-circuit of line 69. -/
def wrapLoop (block : Block) (result : Nat) (n : Nat) :
    List Nat → Option (List Bool) → Sum Column (Option (List Bool))
  | [], acc => .inr acc
  | arg :: rest, acc =>
      let elem := getByPosition block arg
      if !elem.type.isNullable then
        wrapLoop block result n rest acc
      else if (elem.column.getD default).onlyNull then
        .inl (createColumnConstNull (getByPosition block result).type n)
      else if (elem.column.getD default).isColumnConst then
        wrapLoop block result n rest acc
      else
        match elem.column.getD default with
        | Column.nullableCol _ nm =>
            match acc with
            | none => wrapLoop block result n rest (some nm)
            | some res => wrapLoop block result n rest (some (orNullMaps res nm))
        | Column.dense _ => wrapLoop block result n rest acc
        | Column.nothingCol _ => wrapLoop block result n rest acc
        | Column.constCol _ _ => wrapLoop block result n rest acc
        | Column.dictCol _ _ => wrapLoop block result n rest acc

/-- `wrapInNullable` (IFunction.cpp lines 46-104): wrap the kernel result in a
Nullable column whose null map ORs the null maps of the nullable non-constant
arguments, short-circuiting to a constant null when some argument column is a
constant null. -/
def wrapInNullable (src : Column) (block : Block) (args : List Nat) (result : Nat) (n : Nat) :
    Column :=
  if src.onlyNull then src
  else
    let src_not_nullable :=
      match src with
      | Column.nullableCol inner _ => inner
      | Column.dense d => Column.dense d
      | Column.nothingCol m => Column.nothingCol m
      | Column.constCol k i => Column.constCol k i
      | Column.dictCol u idx => Column.dictCol u idx
    let init : Option (List Bool) :=
      match src with
      | Column.nullableCol _ nm => some nm
      | Column.dense _ => none
      | Column.nothingCol _ => none
      | Column.constCol _ _ => none
      | Column.dictCol _ _ => none
    match wrapLoop block result n args init with
    | .inl c => c
    | .inr none => makeNullableColumn src
    | .inr (some nm) =>
        if src_not_nullable.isColumnConst then
          Column.nullableCol src_not_nullable.convertToFullColumnIfConst nm
        else
          Column.nullableCol src_not_nullable nm

/-- `NullPresence` (IFunction.cpp lines 107-111). -/
structure NullPresence where
  has_nullable : Bool := false
  has_null_constant : Bool := false
deriving DecidableEq

/-- `getNullPresense` over batch positions (IFunction.cpp lines 113-128). -/
def getNullPresense (block : Block) (args : List Nat) : NullPresence :=
  { has_nullable := args.any (fun arg => (getByPosition block arg).type.isNullable)
    has_null_constant := args.any (fun arg => (getByPosition block arg).type.onlyNull) }

/-- `getNullPresense` over argument entries (IFunction.cpp lines 130-143). -/
def getNullPresenseArgs (args : List ColumnWithTypeAndName) : NullPresence :=
  { has_nullable := args.any (fun elem => elem.type.isNullable)
    has_null_constant := args.any (fun elem => elem.type.onlyNull) }

/-- `allArgumentsAreConstants` (IFunction.cpp lines 145-151). -/
def allArgumentsAreConstants (block : Block) (args : List Nat) : Bool :=
  args.all (fun arg => (columnAt block arg).isColumnConst)

/-- `ColumnConst::getDataColumnPtr`. -/
def getDataColumnPtr : Column → Column
  | .constCol _ inner => inner
  | .dense d => .dense d
  | .nothingCol m => .nothingCol m
  | .nullableCol i nm => .nullableCol i nm
  | .dictCol u idx => .dictCol u idx

/-- Strip the Nullable wrapper from one column (nested column of a nullable
column; constants are rebuilt around the nested data). -/
def denullColumn : Column → Column
  | Column.nullableCol inner _ => inner
  | Column.constCol k (Column.nullableCol inner _) => Column.constCol k inner
  | Column.constCol k (Column.dense d) => Column.constCol k (Column.dense d)
  | Column.constCol k (Column.nothingCol m) => Column.constCol k (Column.nothingCol m)
  | Column.constCol k (Column.constCol k2 i) => Column.constCol k (Column.constCol k2 i)
  | Column.constCol k (Column.dictCol u idx) => Column.constCol k (Column.dictCol u idx)
  | Column.dense d => Column.dense d
  | Column.nothingCol m => Column.nothingCol m
  | Column.dictCol u idx => Column.dictCol u idx

/-- Strip the Nullable wrapper from an entry whose declared type is
Nullable. -/
def denullEntry (e : ColumnWithTypeAndName) : ColumnWithTypeAndName :=
  match e.type with
  | DataType.nullable t => { column := e.column.map denullColumn, type := t, name := e.name }
  | DataType.base => e
  | DataType.nothing => e
  | DataType.withDict _ _ => e

/-- Modelled from the spec: `createBlockWithNestedColumns` (FunctionHelpers,
outside src): the same-shape batch in which every argument entry of Nullable
declared type is replaced by its de-nulled type and column; all other entries
(including the result slot) are copied unchanged. -/
def createBlockWithNestedColumns (block : Block) (args : List Nat) : Block :=
  (List.range block.length).map
    (fun i => if args.contains i then denullEntry (getByPosition block i) else getByPosition block i)

/-- One entry of the size-1 sub-batch of the constant folder: arguments in the
must-remain-constant set are kept, the rest are replaced by their data
columns (IFunction.cpp lines 171-182). -/
def constArgsTempEntry (block : Block) (args : List Nat) (remain : List Nat) (argNum : Nat) :
    ColumnWithTypeAndName :=
  let column := getByPosition block (args.getD argNum 0)
  if remain.contains argNum then column
  else { column with column := some (getDataColumnPtr (columnAt block (args.getD argNum 0))) }

/-- `PreparedFunctionImpl::defaultImplementationForConstantArguments`
(IFunction.cpp lines 154-201), parameterized by the recursive entry point.
Returns `none` for the C++ `return false` (layer not applicable); the `Nat`
counts `executeImpl` invocations. -/
def defaultImplementationForConstantArgumentsAux
    (recurse : Block → List Nat → Nat → Nat → Except Err (Block × Nat))
    (K : IFunction) (block : Block) (args : List Nat) (result : Nat) (n : Nat) :
    Except Err (Option Block × Nat) := do
  let remain := K.getArgumentsThatAreAlwaysConstant
  if remain.any (fun argNum =>
      argNum < args.length && !(columnAt block (args.getD argNum 0)).isColumnConst) then
    throw Err.illegalColumn
  if args.isEmpty || !K.useDefaultImplementationForConstants
      || !allArgumentsAreConstants block args then
    return (none, 0)
  let tempArgEntries := (List.range args.length).map (constArgsTempEntry block args remain)
  if !(List.range args.length).any (fun i => !remain.contains i) then
    throw Err.numberOfArgumentsDoesntMatch
  let temporary_block := tempArgEntries ++ [getByPosition block result]
  let temporary_argument_numbers := List.range args.length
  let (tb, cnt) ←
    recurse temporary_block temporary_argument_numbers args.length (blockRows temporary_block)
  return (some (setColumn block result (ColumnConst.create (columnAt tb args.length) n)), cnt)

/-- `PreparedFunctionImpl::defaultImplementationForNulls` (IFunction.cpp lines
204-228), parameterized by the recursive entry point. -/
def defaultImplementationForNullsAux
    (recurse : Block → List Nat → Nat → Nat → Except Err (Block × Nat))
    (K : IFunction) (block : Block) (args : List Nat) (result : Nat) (n : Nat) :
    Except Err (Option Block × Nat) := do
  if args.isEmpty || !K.useDefaultImplementationForNulls then
    return (none, 0)
  let null_presence := getNullPresense block args
  if null_presence.has_null_constant then
    return (some (setColumn block result
      (createColumnConstNull (getByPosition block result).type n)), 0)
  if null_presence.has_nullable then
    let temporary_block := createBlockWithNestedColumns block args
    let (tb, cnt) ← recurse temporary_block args result (blockRows temporary_block)
    return (some (setColumn block result
      (wrapInNullable (columnAt tb result) block args result n)), cnt)
  return (none, 0)

/-- `PreparedFunctionImpl::executeWithoutColumnsWithDictionary` (IFunction.cpp
lines 230-239): constant folding, then null handling, then the kernel. The
fuel bounds the (in the source, semantically bounded) recursion depth. -/
def executeWithoutColumnsWithDictionary (K : IFunction) :
    Nat → Block → List Nat → Nat → Nat → Except Err (Block × Nat)
  | 0, _, _, _, _ => .error .fuelExhausted
  | fuel + 1, block, args, result, n => do
      match ← defaultImplementationForConstantArgumentsAux
          (executeWithoutColumnsWithDictionary K fuel) K block args result n with
      | (some b, cnt) => pure (b, cnt)
      | (none, _) =>
        match ← defaultImplementationForNullsAux
            (executeWithoutColumnsWithDictionary K fuel) K block args result n with
        | (some b, cnt) => pure (b, cnt)
        | (none, _) => do
            let b ← K.executeImpl block args result n
            pure (b, 1)

/-- The constant folder at a given fuel. -/
def defaultImplementationForConstantArguments (K : IFunction) (fuel : Nat) :
    Block → List Nat → Nat → Nat → Except Err (Option Block × Nat) :=
  defaultImplementationForConstantArgumentsAux (executeWithoutColumnsWithDictionary K fuel) K

/-- The null handler at a given fuel. -/
def defaultImplementationForNulls (K : IFunction) (fuel : Nat) :
    Block → List Nat → Nat → Nat → Except Err (Option Block × Nat) :=
  defaultImplementationForNullsAux (executeWithoutColumnsWithDictionary K fuel) K

/-- Scan state of `removeColumnsWithDictionary` (IFunction.cpp lines
243-263). -/
structure DictScan where
  has_with_dictionary : Bool := false
  convert_all_to_full : Bool := false
  column_with_dict_size : Nat := 0
  indexes : Option (List Nat) := none
deriving DecidableEq

/-- One step of the argument scan of `removeColumnsWithDictionary`. -/
def dictScanStep (block : Block) (st : DictScan) (arg : Nat) : DictScan :=
  match columnAt block arg with
  | Column.dictCol u idx =>
      if st.has_with_dictionary then { st with convert_all_to_full := true }
      else { st with
              has_with_dictionary := true
              column_with_dict_size := u.size
              indexes := some idx }
  | Column.constCol _ _ => st
  | _ => { st with convert_all_to_full := true }

/-- The per-argument loop body of `removeColumnsWithDictionary` (IFunction.cpp
lines 283-305): a dictionary column is replaced by its full expansion (in the
fallback) or its unique values, with the dictionary type stripped; a constant
is resized to the dictionary cardinality; anything else is kept in the
fallback and is a contract violation otherwise. -/
def dictTempEntryBody (block : Block) (st : DictScan) (arg : Nat) :
    Except Err ColumnWithTypeAndName := do
  let col := getByPosition block arg
  match col.column.getD default with
  | Column.dictCol u idx =>
      match col.type with
      | DataType.withDict t _ =>
          pure { column := some (if st.convert_all_to_full then u.selectRows idx else u)
                 type := t
                 name := col.name }
      | _ => throw Err.logicalError
  | Column.constCol k inner =>
      pure { col with
              column := some ((Column.constCol k inner).cloneResized st.column_with_dict_size) }
  | _ =>
      if st.convert_all_to_full then pure col else throw Err.logicalError

/-- `removeColumnsWithDictionary` (IFunction.cpp lines 241-308): detect
dictionary-encoded arguments and build the sub-batch (result entry first,
with the dictionary return type stripped to its inner type), together with
the index array to reuse (`none` models the C++ null `indexes`). Returns
`none` for the C++ empty block (no dictionary argument). -/
def removeColumnsWithDictionary (block : Block) (args : List Nat) (result : Nat) :
    Except Err (Option (Block × Option (List Nat))) := do
  let st := args.foldl (dictScanStep block) {}
  let indexes := if !st.has_with_dictionary || st.convert_all_to_full then none else st.indexes
  if !st.has_with_dictionary then
    return none
  let res_entry := getByPosition block result
  let res_inner_type ←
    match res_entry.type with
    | DataType.withDict t _ => pure t
    | _ => throw Err.logicalError
  let entries ← args.mapM (dictTempEntryBody block st)
  return some ({ res_entry with type := res_inner_type } :: entries, indexes)

/-- Modelled from the spec: `ColumnWithDictionary::insertRangeFromFullColumn`
on a fresh dictionary column (ColumnWithDictionary is outside src): the
unique-value set becomes the inserted full column and the own index array
enumerates its rows. -/
def dictInsertRangeFromFullColumn (c full : Column) : Column :=
  match c with
  | Column.dictCol _ _ =>
      Column.dictCol full.convertToFullColumnIfConst (List.range full.size)
  | Column.dense d => Column.dense d
  | Column.nothingCol m => Column.nothingCol m
  | Column.nullableCol i nm => Column.nullableCol i nm
  | Column.constCol k i => Column.constCol k i

/-- Modelled from the spec: `ColumnWithDictionary::index` (outside src):
select rows of the dictionary column, composing the index arrays. -/
def dictIndex (c : Column) (idxs : List Nat) : Column :=
  match c with
  | Column.dictCol u own => Column.dictCol u (idxs.map (fun i => own.getD i 0))
  | Column.dense d => Column.dense d
  | Column.nothingCol m => Column.nothingCol m
  | Column.nullableCol i nm => Column.nullableCol i nm
  | Column.constCol k i => Column.constCol k i

/-- `PreparedFunctionImpl::execute` (IFunction.cpp lines 310-340): the public
entry point; unwraps dictionary encoding when the kernel opts in, then
dispatches to `executeWithoutColumnsWithDictionary`. -/
def execute (K : IFunction) (fuel : Nat) (block : Block) (args : List Nat) (result : Nat)
    (n : Nat) : Except Err (Block × Nat) := do
  if K.useDefaultImplementationForColumnsWithDictionary then
    match ← removeColumnsWithDictionary block args result with
    | some (temp_block, indexes) =>
        let temp_numbers := (List.range args.length).map (fun i => i + 1)
        let (tb, cnt) ← executeWithoutColumnsWithDictionary K fuel temp_block temp_numbers 0 n
        let temp_res_col := columnAt tb 0
        let res_entry := getByPosition block result
        match res_entry.type.createColumn with
        | Column.dictCol u0 i0 =>
            let filled := dictInsertRangeFromFullColumn (Column.dictCol u0 i0) temp_res_col
            let res_col :=
              match indexes with
              | some idxs => dictIndex filled idxs
              | none => filled
            pure (setColumn block result res_col, cnt)
        | _ => throw Err.logicalError
    | none => executeWithoutColumnsWithDictionary K fuel block args result n
  else
    executeWithoutColumnsWithDictionary K fuel block args result n

/-- `FunctionBuilderImpl::checkNumberOfArguments` (IFunction.cpp lines
342-353). -/
def checkNumberOfArguments (K : IFunction) (number_of_arguments : Nat) : Except Err Unit :=
  if K.isVariadic then pure ()
  else if number_of_arguments ≠ K.getNumberOfArguments then
    throw Err.numberOfArgumentsDoesntMatch
  else pure ()

/-- Strip a dictionary-encoded declared type to its inner type (the per-entry
step of `ArgumentsWithoutDictionary`, IFunction.cpp lines 355-382). -/
def stripDictEntry (a : ColumnWithTypeAndName) : ColumnWithTypeAndName :=
  { a with type := a.type.dictionaryType }

/-- Modelled from the spec: `getLeastSupertype` over dictionary index types
(outside src): the smallest width covering all of them, i.e. their maximum. -/
def leastSupertypeWidth (l : List Nat) : Nat :=
  l.foldl max 0

/-- `FunctionBuilderImpl::getReturnTypeWithoutDictionary` (IFunction.cpp lines
384-406). -/
def getReturnTypeWithoutDictionary (K : IFunction)
    (arguments : List ColumnWithTypeAndName) : Except Err DataType := do
  let _ ← checkNumberOfArguments K arguments.length
  if !arguments.isEmpty && K.useDefaultImplementationForNulls then
    let null_presense := getNullPresenseArgs arguments
    if null_presense.has_null_constant then
      return DataType.nullable DataType.nothing
    if null_presense.has_nullable then
      let nested_args := arguments.map denullEntry
      let return_type ← K.getReturnTypeImpl nested_args
      return makeNullableType return_type
  K.getReturnTypeImpl arguments

/-- `FunctionBuilderImpl::getReturnType` (IFunction.cpp lines 475-487). -/
def getReturnType (K : IFunction) (arguments : List ColumnWithTypeAndName) :
    Except Err DataType := do
  if K.useDefaultImplementationForColumnsWithDictionary then
    if arguments.any (fun a => a.type.isWithDict) then
      let inner ← getReturnTypeWithoutDictionary K (arguments.map stripDictEntry)
      return DataType.withDict inner
        (leastSupertypeWidth (arguments.filterMap (fun a => a.type.dictIndexWidth)))
  getReturnTypeWithoutDictionary K arguments

/-- The contract of an ordinary scalar kernel: map a per-row function over the
argument rows (row count taken from the first argument column, the convention
of the engine's dense kernels) and store the dense result in the result
slot. -/
def pointwiseKernel (g : List Val → Val) : Block → List Nat → Nat → Nat → Except Err Block :=
  fun block args result _ =>
    .ok (setColumn block result (Column.dense
      ((List.range (columnAt block (args.headD 0)).size).map
        (fun i => g (args.map (fun a => (columnAt block a).valAt i))))))

/-- A two-argument, non-variadic kernel opting into default null handling,
used to exhibit the arity precondition missing from C8 as stated. -/
def K8 : IFunction where
  name := "c8"
  useDefaultImplementationForNulls := true
  useDefaultImplementationForConstants := false
  useDefaultImplementationForColumnsWithDictionary := false
  getArgumentsThatAreAlwaysConstant := []
  isVariadic := false
  getNumberOfArguments := 2
  executeImpl := pointwiseKernel (fun _ => 0)
  getReturnTypeImpl := fun _ => .ok DataType.base

/-- A one-entry argument list whose (only) declared type is the always-null
type. -/
def argsC8 : List ColumnWithTypeAndName :=
  [⟨none, DataType.nullable DataType.nothing, "x"⟩]

/-- The variadic variant of the C8 kernel, satisfying the arity check. -/
def K8v : IFunction := { K8 with isVariadic := true }

/-- A kernel declaring argument 0 must-remain-constant (not opting into
constant folding), for the C10 witness. -/
def K10 : IFunction where
  name := "c10"
  useDefaultImplementationForNulls := false
  useDefaultImplementationForConstants := false
  useDefaultImplementationForColumnsWithDictionary := false
  getArgumentsThatAreAlwaysConstant := [0]
  isVariadic := true
  getNumberOfArguments := 1
  executeImpl := pointwiseKernel (fun _ => 0)
  getReturnTypeImpl := fun _ => .ok DataType.base

/-- The same kernel declaring only the out-of-range position 5. -/
def K10b : IFunction := { K10 with getArgumentsThatAreAlwaysConstant := [5] }

/-- A two-entry batch: one dense (non-constant) argument and a result slot. -/
def block10 : Block :=
  [⟨some (Column.dense [1, 2]), DataType.base, "a"⟩, ⟨none, DataType.base, "r"⟩]

/-- A concrete stand-in recursive entry point for the C10 witness. -/
def recurse10 : Block → List Nat → Nat → Nat → Except Err (Block × Nat) :=
  fun b _ _ _ => .ok (b, 0)

/-- A constant-folding kernel whose only argument must remain constant,
for the C7 witness. -/
def K7 : IFunction where
  name := "c7"
  useDefaultImplementationForNulls := false
  useDefaultImplementationForConstants := true
  useDefaultImplementationForColumnsWithDictionary := false
  getArgumentsThatAreAlwaysConstant := [0]
  isVariadic := true
  getNumberOfArguments := 1
  executeImpl := pointwiseKernel (fun _ => 0)
  getReturnTypeImpl := fun _ => .ok DataType.base

/-- The same kernel with no exempt position. -/
def K7b : IFunction := { K7 with getArgumentsThatAreAlwaysConstant := [] }

/-- A batch with one constant argument and a result slot. -/
def block7 : Block :=
  [⟨some (Column.constCol 3 (Column.dense [7])), DataType.base, "a"⟩,
   ⟨none, DataType.base, "r"⟩]

/-! ### C5: the null-map OR of wrapInNullable -/
/-- The null bit an accumulated (optional) merged map assigns to row `i`. -/
def accBit : Option (List Bool) → Nat → Bool
  | none, _ => false
  | some m, i => m.getD i false

/-- A kernel result column that is itself nullable with a set bit. -/
def src5 : Column := Column.nullableCol (Column.dense [1]) [true]

/-- A batch whose single nullable argument has no null rows. -/
def block5 : Block :=
  [⟨some (Column.nullableCol (Column.dense [5]) [false]), DataType.nullable DataType.base, "a"⟩,
   ⟨none, DataType.nullable DataType.base, "r"⟩]

/-- A kernel writing only the result slot, for the C9 witness. -/
def K9 : IFunction where
  name := "c9"
  useDefaultImplementationForNulls := false
  useDefaultImplementationForConstants := false
  useDefaultImplementationForColumnsWithDictionary := false
  getArgumentsThatAreAlwaysConstant := []
  isVariadic := true
  getNumberOfArguments := 1
  executeImpl := pointwiseKernel (fun l => l.foldl (· + ·) 0)
  getReturnTypeImpl := fun _ => .ok DataType.base

/-- A concrete batch for the C9 witness. -/
def block9 : Block :=
  [⟨some (Column.dense [1, 2]), DataType.base, "a"⟩, ⟨none, DataType.base, "r"⟩]

/-- A null-opting kernel declaring argument 1 must-remain-constant, for the
C2 counterexample. -/
def K2c : IFunction where
  name := "c2c"
  useDefaultImplementationForNulls := true
  useDefaultImplementationForConstants := false
  useDefaultImplementationForColumnsWithDictionary := false
  getArgumentsThatAreAlwaysConstant := [1]
  isVariadic := true
  getNumberOfArguments := 2
  executeImpl := pointwiseKernel (fun _ => 0)
  getReturnTypeImpl := fun _ => .ok DataType.base

/-- A batch with a constant-null argument, a dense (non-constant) second
argument, and a result slot of the always-null type. -/
def block2 : Block :=
  [⟨some (Column.constCol 2 (Column.nullableCol (Column.nothingCol 1) [true])),
      DataType.nullable DataType.nothing, "x"⟩,
   ⟨some (Column.dense [1, 2]), DataType.base, "y"⟩,
   ⟨none, DataType.nullable DataType.nothing, "r"⟩]

/-- The C2 witness kernel: null-opting, nothing else enabled. -/
def K2w : IFunction := { K2c with getArgumentsThatAreAlwaysConstant := [] }

/-! ### C4: constant folding equivalence -/
/-- The caller-side materialization of all constant arguments into dense
length-`n` columns (the comparison batch of the constant-folding equivalence
property). -/
def materializeArgsBlock (block : Block) (args : List Nat) : Block :=
  (List.range block.length).map (fun p =>
    if args.contains p then
      { getByPosition block p with
        column := some ((columnAt block p).convertToFullColumnIfConst) }
    else getByPosition block p)

/-- A constant-folding additive kernel for the C4 witness. -/
def K4 : IFunction where
  name := "c4"
  useDefaultImplementationForNulls := false
  useDefaultImplementationForConstants := true
  useDefaultImplementationForColumnsWithDictionary := false
  getArgumentsThatAreAlwaysConstant := []
  isVariadic := true
  getNumberOfArguments := 2
  executeImpl := pointwiseKernel (fun l => l.foldl (· + ·) 0)
  getReturnTypeImpl := fun _ => .ok DataType.base

/-- Two constant arguments of length 3 and a result slot. -/
def block4 : Block :=
  [⟨some (Column.constCol 3 (Column.dense [2])), DataType.base, "a"⟩,
   ⟨some (Column.constCol 3 (Column.dense [5])), DataType.base, "b"⟩,
   ⟨none, DataType.base, "r"⟩]

/-- The per-position constant values of `block4`. -/
def v4 : Nat → Val := fun a => if a = 0 then 2 else 5

/-! ### C3 and C6: the dictionary layer -/
/-- The unique-value column of a dictionary column. -/
def dictUnique : Column → Column
  | .dictCol u _ => u
  | .dense d => .dense d
  | .nothingCol m => .nothingCol m
  | .nullableCol i nm => .nullableCol i nm
  | .constCol k i => .constCol k i

/-- The index array of a dictionary column. -/
def dictIndexes : Column → List Nat
  | .dictCol _ idx => idx
  | _ => []

/-- The entry `removeColumnsWithDictionary` builds for one argument: a
dictionary argument is replaced by its unique values (or full expansion in
the fallback), a constant is resized to the dictionary cardinality, and a
dense argument is kept (fallback only). -/
def dictTempEntryFn (block : Block) (convert : Bool) (card : Nat) (a : Nat) :
    ColumnWithTypeAndName :=
  if (columnAt block a).isDictColumn then
    { column := some (if convert
        then (dictUnique (columnAt block a)).selectRows (dictIndexes (columnAt block a))
        else dictUnique (columnAt block a))
      type := (getByPosition block a).type.dictionaryType
      name := (getByPosition block a).name }
  else
    { getByPosition block a with column := some ((columnAt block a).cloneResized card) }

/-- A two-argument additive kernel function for the C3 witness. -/
def g3 : List Val → Val := fun l => l.headD 0 + l.getD 1 0

/-- A dictionary-handling pointwise kernel for the C3 witness. -/
def K3 : IFunction where
  name := "plus3"
  useDefaultImplementationForNulls := false
  useDefaultImplementationForConstants := false
  useDefaultImplementationForColumnsWithDictionary := true
  getArgumentsThatAreAlwaysConstant := []
  isVariadic := false
  getNumberOfArguments := 2
  executeImpl := pointwiseKernel g3
  getReturnTypeImpl := fun _ => .ok DataType.base

/-- The three-entry batch for the C3 witness: a constant argument, a
dictionary-encoded argument and the result slot. -/
def block3 : Block :=
  [ { column := some (Column.constCol 3 (Column.dense [10])), type := DataType.base,
      name := "c" },
    { column := some (Column.dictCol (Column.dense [1, 2]) [0, 1, 0]),
      type := DataType.withDict DataType.base 8, name := "d" },
    { column := none, type := DataType.withDict DataType.base 8, name := "r" } ]

/-- A dictionary-handling pointwise kernel for the C6 fallback runs. -/
def K6 : IFunction where
  name := "plus6"
  useDefaultImplementationForNulls := false
  useDefaultImplementationForConstants := false
  useDefaultImplementationForColumnsWithDictionary := true
  getArgumentsThatAreAlwaysConstant := []
  isVariadic := false
  getNumberOfArguments := 2
  executeImpl := pointwiseKernel g3
  getReturnTypeImpl := fun _ => .ok DataType.base

/-- A batch with two dictionary-encoded arguments (the fallback trigger) and a
result slot of dictionary type. -/
def block6 : Block :=
  [ { column := some (Column.dictCol (Column.dense [1, 2]) [0, 1, 0]),
      type := DataType.withDict DataType.base 8, name := "x" },
    { column := some (Column.dictCol (Column.dense [5, 7]) [1, 1, 0]),
      type := DataType.withDict DataType.base 8, name := "y" },
    { column := none, type := DataType.withDict DataType.base 8, name := "r" } ]

/-- The pure return-type function that `getReturnTypeWithoutDictionary`
computes for a kernel whose own return-type computation is constantly the
base type: Nullable(Nothing) on a constant-null argument type, Nullable(base)
on a nullable argument type, base otherwise. -/
def rtSpecN (flagN : Bool) (types : List DataType) : DataType :=
  if !types.isEmpty && flagN && types.any DataType.onlyNull then
    DataType.nullable DataType.nothing
  else if !types.isEmpty && flagN && types.any DataType.isNullable then
    DataType.nullable DataType.base
  else DataType.base

/-- A dictionary-opting kernel for the C1 counterexample. -/
def K1c : IFunction where
  name := "mirror1"
  useDefaultImplementationForNulls := false
  useDefaultImplementationForConstants := false
  useDefaultImplementationForColumnsWithDictionary := true
  getArgumentsThatAreAlwaysConstant := []
  isVariadic := false
  getNumberOfArguments := 1
  executeImpl := pointwiseKernel g3
  getReturnTypeImpl := fun _ => .ok DataType.base

/-- A batch whose only argument has a dictionary-declared type but a constant
(non-dictionary) runtime column. -/
def block1 : Block :=
  [ { column := some (Column.constCol 3 (Column.dense [4])),
      type := DataType.withDict DataType.base 8, name := "x" },
    { column := none, type := DataType.withDict DataType.base 8, name := "r" } ]

/-- A null-handling kernel for the C1 witness. -/
def K1w : IFunction where
  name := "mirror1w"
  useDefaultImplementationForNulls := true
  useDefaultImplementationForConstants := false
  useDefaultImplementationForColumnsWithDictionary := false
  getArgumentsThatAreAlwaysConstant := []
  isVariadic := true
  getNumberOfArguments := 1
  executeImpl := pointwiseKernel g3
  getReturnTypeImpl := fun _ => .ok DataType.base

/-- A batch with one nullable argument and a result slot declared with the
computed return type Nullable(base). -/
def block1w : Block :=
  [ { column := some (Column.nullableCol (Column.dense [1, 2]) [false, true]),
      type := DataType.nullable DataType.base, name := "x" },
    { column := none, type := DataType.nullable DataType.base, name := "r" } ]

/-! ### Theorems -/

/-! ### Helper lemmas: lists, positions and batches -/
theorem getD_map_of_lt {α β : Type} (l : List α) (f : α → β) (i : Nat) (da : α) (db : β)
    (h : i < l.length) : (l.map f).getD i db = f (l.getD i da) := by
  simp [List.getD_eq_getElem?_getD, List.getElem?_map, List.getElem?_eq_getElem, h]

theorem getD_range_of_lt (n i : Nat) (d : Nat) (h : i < n) : (List.range n).getD i d = i := by
  simp [List.getD_eq_getElem?_getD, List.getElem?_range, h]

theorem getD_replicate_of_lt {α : Type} (n i : Nat) (a d : α) (h : i < n) :
    (List.replicate n a).getD i d = a := by
  simp [List.getD_eq_getElem?_getD, List.getElem?_replicate, h]

theorem rangeMap_getD {α β : Type} (l : List α) (f : α → β) (d : α) :
    (List.range l.length).map (fun k => f (l.getD k d)) = l.map f := by
  apply List.ext_getElem (by simp)
  intro i h1 h2
  simp only [List.getElem_map, List.getElem_range]
  rw [List.getD_eq_getElem?_getD, List.getElem?_eq_getElem (by simpa using h2)]
  rfl

theorem getByPosition_cons_zero (e : ColumnWithTypeAndName) (l : Block) :
    getByPosition (e :: l) 0 = e := rfl

theorem getByPosition_cons_succ (e : ColumnWithTypeAndName) (l : Block) (k : Nat) :
    getByPosition (e :: l) (k + 1) = getByPosition l k := rfl

theorem getByPosition_append_left (l1 l2 : Block) (k : Nat) (h : k < l1.length) :
    getByPosition (l1 ++ l2) k = getByPosition l1 k := by
  simp [getByPosition, List.getD_eq_getElem?_getD, List.getElem?_append, h]

theorem getByPosition_append_right (l1 l2 : Block) (k : Nat) (h : l1.length ≤ k) :
    getByPosition (l1 ++ l2) k = getByPosition l2 (k - l1.length) := by
  simp [getByPosition, List.getD_eq_getElem?_getD, List.getElem?_append, Nat.not_lt.mpr h]

theorem getByPosition_rangeMap (f : Nat → ColumnWithTypeAndName) (m k : Nat) (h : k < m) :
    getByPosition ((List.range m).map f) k = f k := by
  simp [getByPosition, List.getD_eq_getElem?_getD, List.getElem?_map, List.getElem?_range, h]

theorem length_setColumn (block : Block) (i : Nat) (c : Column) :
    (setColumn block i c).length = block.length := by
  simp [setColumn]

theorem getByPosition_setColumn_self (block : Block) (i : Nat) (c : Column)
    (h : i < block.length) :
    getByPosition (setColumn block i c) i = { getByPosition block i with column := some c } := by
  simp [getByPosition, setColumn, List.getD_eq_getElem?_getD, List.getElem?_set_self, h]

theorem getByPosition_setColumn_ne (block : Block) (i j : Nat) (c : Column) (h : j ≠ i) :
    getByPosition (setColumn block i c) j = getByPosition block j := by
  simp [getByPosition, setColumn, List.getD_eq_getElem?_getD, List.getElem?_set_ne (Ne.symm h)]

theorem columnAt_setColumn_self (block : Block) (i : Nat) (c : Column) (h : i < block.length) :
    columnAt (setColumn block i c) i = c := by
  simp [columnAt, getByPosition_setColumn_self block i c h]

theorem columnAt_setColumn_ne (block : Block) (i j : Nat) (c : Column) (h : j ≠ i) :
    columnAt (setColumn block i c) j = columnAt block j := by
  simp [columnAt, getByPosition_setColumn_ne block i j c h]

theorem orNullMaps_length (res src : List Bool) : (orNullMaps res src).length = res.length := by
  simp [orNullMaps]

theorem orNullMaps_getD (res src : List Bool) (i : Nat) (h : i < res.length) :
    (orNullMaps res src).getD i false = (res.getD i false || src.getD i false) := by
  unfold orNullMaps
  rw [getD_map_of_lt (List.range res.length) _ i 0 false (by simpa using h),
    getD_range_of_lt _ _ _ h]

theorem mapM_ok_of_forall {α β : Type} (l : List α) (f : α → Except Err β) (g : α → β)
    (h : ∀ a ∈ l, f a = .ok (g a)) : l.mapM f = .ok (l.map g) := by
  induction l with
  | nil => rfl
  | cons a t ih =>
      rw [List.mapM_cons, h a (by simp), ih (fun x hx => h x (by simp [hx]))]
      rfl

/-! ### C8: the null case analysis of getReturnTypeWithoutDictionary -/
/-- C8 (amended): for every kernel opting into default null handling and
every non-empty argument type list that passes the arity check,
`getReturnTypeWithoutDictionary` returns `Nullable(Nothing)` when some
argument type is the always-null type; otherwise, when some argument type is
nullable, it returns `Nullable` of the kernel's return type computed over the
de-nulled argument types; otherwise it delegates to the kernel's own
return-type computation unchanged. -/
theorem C8_return_type_null_cases (K : IFunction) (arguments : List ColumnWithTypeAndName)
    (hflag : K.useDefaultImplementationForNulls = true)
    (hne : arguments ≠ [])
    (harity : K.isVariadic = true ∨ arguments.length = K.getNumberOfArguments) :
    (arguments.any (fun a => a.type.onlyNull) = true →
      getReturnTypeWithoutDictionary K arguments = .ok (DataType.nullable DataType.nothing))
    ∧ (arguments.any (fun a => a.type.onlyNull) = false →
       arguments.any (fun a => a.type.isNullable) = true →
      getReturnTypeWithoutDictionary K arguments =
        (K.getReturnTypeImpl (arguments.map denullEntry)).map makeNullableType)
    ∧ (arguments.any (fun a => a.type.onlyNull) = false →
       arguments.any (fun a => a.type.isNullable) = false →
      getReturnTypeWithoutDictionary K arguments = K.getReturnTypeImpl arguments) := by
  have hchk : checkNumberOfArguments K arguments.length = .ok () := by
    rcases harity with h | h
    · simp [checkNumberOfArguments, h, pure, Except.pure]
    · simp [checkNumberOfArguments, h, pure, Except.pure]
  refine ⟨fun h1 => ?_, fun h1 h2 => ?_, fun h1 h2 => ?_⟩
  · simp [getReturnTypeWithoutDictionary, hchk, hflag, hne, getNullPresenseArgs, h1,
      pure, Except.pure, bind, Except.bind]
  · cases himpl : K.getReturnTypeImpl (arguments.map denullEntry) with
    | ok rt =>
        simp [getReturnTypeWithoutDictionary, hchk, hflag, hne, getNullPresenseArgs, h1, h2,
          himpl, Except.map, pure, Except.pure, bind, Except.bind]
    | error e =>
        simp [getReturnTypeWithoutDictionary, hchk, hflag, hne, getNullPresenseArgs, h1, h2,
          himpl, Except.map, pure, Except.pure, bind, Except.bind]
  · simp [getReturnTypeWithoutDictionary, hchk, hflag, hne, getNullPresenseArgs, h1, h2,
      pure, Except.pure, bind, Except.bind]

/-- C8 counterexample: a kernel opting into default null handling, given a
non-empty argument list containing the always-null type, on which
`getReturnTypeWithoutDictionary` does not return `Nullable(Nothing)` but
faults, because the argument count does not match the kernel's declared
arity — the claim omits the arity check that runs first. -/
theorem C8_counterexample :
    K8.useDefaultImplementationForNulls = true
    ∧ (argsC8.any (fun a => a.type.onlyNull)) = true
    ∧ argsC8 ≠ []
    ∧ getReturnTypeWithoutDictionary K8 argsC8 = .error Err.numberOfArgumentsDoesntMatch := by
  exact ⟨rfl, rfl, by decide, rfl⟩

/-- Witness for C8: the amended theorem applied at a concrete kernel and
argument list. -/
theorem C8_return_type_null_cases_witness :
    getReturnTypeWithoutDictionary K8v argsC8 = .ok (DataType.nullable DataType.nothing) :=
  (C8_return_type_null_cases K8v argsC8 rfl (by decide) (Or.inl rfl)).1 rfl

/-! ### C10: the must-remain-constant check -/
theorem contains_eq_false_of_not_mem {l : List Nat} {a : Nat} (h : a ∉ l) :
    l.contains a = false := by
  simpa using h

/-- C10: on every call dispatched through `executeWithoutColumnsWithDictionary`,
a kernel-declared must-remain-constant position below the argument count whose
column is not constant faults the call with `IllegalColumn` — regardless of the
constant-folding flag or of the other columns — while declared positions at or
beyond the argument count have no effect on the constant folder at all (it
behaves as if the declared set were empty). -/
theorem C10_remain_constant_check (K : IFunction) (fuel : Nat) (block : Block)
    (args : List Nat) (result n : Nat) :
    ((K.getArgumentsThatAreAlwaysConstant.any (fun argNum =>
        argNum < args.length && !(columnAt block (args.getD argNum 0)).isColumnConst)) = true →
      executeWithoutColumnsWithDictionary K (fuel + 1) block args result n =
        .error Err.illegalColumn)
    ∧ (∀ recurse : Block → List Nat → Nat → Nat → Except Err (Block × Nat),
        (∀ i ∈ K.getArgumentsThatAreAlwaysConstant, args.length ≤ i) →
        defaultImplementationForConstantArgumentsAux recurse K block args result n =
          defaultImplementationForConstantArgumentsAux recurse
            { K with getArgumentsThatAreAlwaysConstant := [] } block args result n) := by
  constructor
  · intro h
    simp only [executeWithoutColumnsWithDictionary, defaultImplementationForConstantArgumentsAux,
      h, bind, Except.bind, pure, Except.pure, throw, throwThe, MonadExceptOf.throw, if_true]
  · intro recurse hge
    have h1 : (K.getArgumentsThatAreAlwaysConstant.any (fun argNum =>
        argNum < args.length && !(columnAt block (args.getD argNum 0)).isColumnConst)) = false := by
      rw [List.any_eq_false]
      intro i hi
      simp [Nat.not_lt.mpr (hge i hi)]
    have h2 : (List.range args.length).map
          (constArgsTempEntry block args K.getArgumentsThatAreAlwaysConstant)
        = (List.range args.length).map (constArgsTempEntry block args []) := by
      apply List.map_congr_left
      intro i hi
      have hnm : i ∉ K.getArgumentsThatAreAlwaysConstant := fun hmem =>
        absurd (hge i hmem) (by simpa using List.mem_range.mp hi)
      simp only [constArgsTempEntry, contains_eq_false_of_not_mem hnm, List.contains_nil,
        Bool.false_eq_true, if_false]
    have h3 : ((List.range args.length).any
          (fun i => !K.getArgumentsThatAreAlwaysConstant.contains i))
        = ((List.range args.length).any (fun i => !List.contains [] i)) := by
      rw [Bool.eq_iff_iff]
      simp only [List.any_eq_true, List.mem_range]
      constructor
      · rintro ⟨i, hi, _⟩
        exact ⟨i, hi, by simp⟩
      · rintro ⟨i, hi, _⟩
        have hnm : i ∉ K.getArgumentsThatAreAlwaysConstant := fun hmem =>
          absurd (hge i hmem) (Nat.not_le.mpr hi)
        exact ⟨i, hi, by simpa using hnm⟩
    simp only [defaultImplementationForConstantArgumentsAux, h1, h2, h3, List.any_nil]

/-- Witness for C10 at concrete inputs: the non-constant column at declared
position 0 faults the call, and an out-of-range declared position 5 leaves the
constant folder behaving as with no declared positions. -/
theorem C10_remain_constant_check_witness :
    executeWithoutColumnsWithDictionary K10 1 block10 [0] 1 2 = .error Err.illegalColumn
    ∧ defaultImplementationForConstantArgumentsAux recurse10 K10b block10 [0] 1 2 =
        defaultImplementationForConstantArgumentsAux recurse10
          { K10b with getArgumentsThatAreAlwaysConstant := [] } block10 [0] 1 2 :=
  ⟨(C10_remain_constant_check K10 0 block10 [0] 1 2).1 (by decide),
   (C10_remain_constant_check K10b 0 block10 [0] 1 2).2 recurse10 (by decide)⟩

/-! ### C7: the all-exempt guard of the constant folder -/
theorem getD_mem {α : Type} (l : List α) (i : Nat) (d : α) (h : i < l.length) :
    l.getD i d ∈ l := by
  rw [List.getD_eq_getElem?_getD, List.getElem?_eq_getElem h]
  exact List.getElem_mem h

theorem contains_eq_true_of_mem {l : List Nat} {a : Nat} (h : a ∈ l) :
    l.contains a = true := by
  simpa using h

theorem constArgsTempEntry_type (block : Block) (args remain : List Nat) (k : Nat) :
    (constArgsTempEntry block args remain k).type
      = (getByPosition block (args.getD k 0)).type := by
  rw [constArgsTempEntry]
  split <;> rfl

theorem constArgsTempEntry_of_mem (block : Block) (args remain : List Nat) (k : Nat)
    (h : k ∈ remain) :
    constArgsTempEntry block args remain k = getByPosition block (args.getD k 0) := by
  rw [constArgsTempEntry, if_pos (contains_eq_true_of_mem h)]

theorem constArgsTempEntry_of_not_mem (block : Block) (args remain : List Nat) (k : Nat)
    (h : k ∉ remain) :
    constArgsTempEntry block args remain k
      = { getByPosition block (args.getD k 0) with
          column := some (getDataColumnPtr (columnAt block (args.getD k 0))) } := by
  rw [constArgsTempEntry, if_neg (by simpa using h)]

/-- The sub-batch the constant folder recurses on has a non-constant argument
whenever some argument position is non-exempt. -/
theorem constFold_temp_not_all_const (K : IFunction) (block : Block) (args : List Nat)
    (result : Nat)
    (hconst : allArgumentsAreConstants block args = true)
    (hex : ∃ j, j < args.length ∧ j ∉ K.getArgumentsThatAreAlwaysConstant)
    (hwf : ∀ a ∈ args, (columnAt block a).WF = true) :
    allArgumentsAreConstants
      ((List.range args.length).map
        (constArgsTempEntry block args K.getArgumentsThatAreAlwaysConstant)
        ++ [getByPosition block result])
      (List.range args.length) = false := by
  obtain ⟨j, hj, hjn⟩ := hex
  rw [allArgumentsAreConstants, List.all_eq_false]
  refine ⟨j, List.mem_range.mpr hj, ?_⟩
  have hlen : j < ((List.range args.length).map
      (constArgsTempEntry block args K.getArgumentsThatAreAlwaysConstant)).length := by
    simpa using hj
  have hcol : columnAt ((List.range args.length).map
        (constArgsTempEntry block args K.getArgumentsThatAreAlwaysConstant)
        ++ [getByPosition block result]) j
      = getDataColumnPtr (columnAt block (args.getD j 0)) := by
    simp only [columnAt, getByPosition_append_left _ _ _ hlen,
      getByPosition_rangeMap _ _ _ hj]
    simp [constArgsTempEntry, hjn, getByPosition, columnAt]
  rw [hcol]
  have hmem : args.getD j 0 ∈ args := getD_mem args j 0 hj
  have hc := (List.all_eq_true.mp hconst) _ hmem
  have hwfc := hwf _ hmem
  rcases hcc : columnAt block (args.getD j 0) with d | m | ⟨i2, nm⟩ | ⟨k, inner⟩ | ⟨u, idx⟩
  · rw [hcc] at hc; simp [Column.isColumnConst] at hc
  · rw [hcc] at hc; simp [Column.isColumnConst] at hc
  · rw [hcc] at hc; simp [Column.isColumnConst] at hc
  · rw [hcc] at hwfc
    simp only [Column.WF, Bool.and_eq_true, Bool.not_eq_true'] at hwfc
    simp [getDataColumnPtr, hwfc.2]
  · rw [hcc] at hc; simp [Column.isColumnConst] at hc

/-- C7: for a kernel opting into default constant handling with all-constant
arguments, if every argument position is in the must-remain-constant set the
call faults with the argument-count error instead of recursing; and whenever
the folder does recurse (some position is non-exempt), the sub-batch it
recurses on fails the all-constant test, so the nested folder cannot fold
again — the guard bounds the folding recursion. -/
theorem C7_all_exempt_guard (K : IFunction) (fuel : Nat) (block : Block)
    (args : List Nat) (result n : Nat)
    (hflag : K.useDefaultImplementationForConstants = true)
    (hne : args ≠ [])
    (hconst : allArgumentsAreConstants block args = true) :
    ((∀ i < args.length, i ∈ K.getArgumentsThatAreAlwaysConstant) →
      executeWithoutColumnsWithDictionary K (fuel + 1) block args result n =
        .error Err.numberOfArgumentsDoesntMatch)
    ∧ ((∃ j, j < args.length ∧ j ∉ K.getArgumentsThatAreAlwaysConstant) →
        (∀ a ∈ args, (columnAt block a).WF = true) →
        allArgumentsAreConstants
          ((List.range args.length).map
            (constArgsTempEntry block args K.getArgumentsThatAreAlwaysConstant)
            ++ [getByPosition block result])
          (List.range args.length) = false) := by
  have hA : (K.getArgumentsThatAreAlwaysConstant.any (fun argNum =>
      argNum < args.length && !(columnAt block (args.getD argNum 0)).isColumnConst)) = false := by
    rw [List.any_eq_false]
    intro i _
    by_cases hlt : i < args.length
    · have hmem : args.getD i 0 ∈ args := getD_mem args i 0 hlt
      have hcc := (List.all_eq_true.mp hconst) _ hmem
      simp only [columnAt] at hcc
      simp only [columnAt, hcc, Bool.not_true, Bool.and_false]
      simp
    · simp [hlt]
  have hB : (args.isEmpty || !K.useDefaultImplementationForConstants
      || !allArgumentsAreConstants block args) = false := by
    simp [hne, hflag, hconst]
  constructor
  · intro hall
    have hC : ((List.range args.length).any
        (fun i => !K.getArgumentsThatAreAlwaysConstant.contains i)) = false := by
      rw [List.any_eq_false]
      intro i hi
      simpa using hall i (List.mem_range.mp hi)
    simp only [executeWithoutColumnsWithDictionary,
      defaultImplementationForConstantArgumentsAux, hA, hB, hC, Bool.false_eq_true, if_false,
      Bool.not_false, if_true, bind, Except.bind, pure, Except.pure, throw, throwThe,
      MonadExceptOf.throw]
  · intro hex hwf
    exact constFold_temp_not_all_const K block args result hconst hex hwf

/-- Witness for C7 at concrete inputs: with the single argument exempt the
call faults with the argument-count error; with it non-exempt the sub-batch
fails the all-constant test. -/
theorem C7_all_exempt_guard_witness :
    executeWithoutColumnsWithDictionary K7 1 block7 [0] 1 3 =
        .error Err.numberOfArgumentsDoesntMatch
    ∧ allArgumentsAreConstants
        ((List.range 1).map
          (constArgsTempEntry block7 [0] K7b.getArgumentsThatAreAlwaysConstant)
          ++ [getByPosition block7 1]) (List.range 1) = false :=
  ⟨(C7_all_exempt_guard K7 0 block7 [0] 1 3 rfl (by decide) (by decide)).1 (by decide),
   (C7_all_exempt_guard K7b 0 block7 [0] 1 3 rfl (by decide) (by decide)).2
     ⟨0, by decide, by decide⟩ (by decide)⟩

theorem getD_replicate_false (k j : Nat) : (List.replicate k false).getD j false = false := by
  by_cases h : j < k
  · exact getD_replicate_of_lt k j false false h
  · rw [List.getD_eq_getElem?_getD, List.getElem?_eq_none (by simpa using Nat.le_of_not_lt h)]
    rfl

/-- Invariant of the argument loop of `wrapInNullable`: in the absence of a
constant-null argument the loop never short-circuits, preserves the length of
the merged map, and ORs in exactly the null bits of the nullable non-constant
arguments. -/
theorem wrapLoop_spec (block : Block) (result n : Nat) (rest : List Nat)
    (acc : Option (List Bool))
    (hsc : ∀ a ∈ rest, (getByPosition block a).type.isNullable = true →
      (columnAt block a).onlyNull = false)
    (hshape : ∀ a ∈ rest, (getByPosition block a).type.isNullable = true →
      (columnAt block a).isColumnConst = false → (columnAt block a).isColumnNullable = true)
    (hmap : ∀ a ∈ rest, ∀ inner nm, columnAt block a = Column.nullableCol inner nm →
      nm.length = n)
    (hacc : acc = none ∨ ∃ m, acc = some m ∧ m.length = n) :
    ∃ acc2, wrapLoop block result n rest acc = .inr acc2
      ∧ (acc2 = none ∨ ∃ m2, acc2 = some m2 ∧ m2.length = n)
      ∧ (∀ i, i < n → accBit acc2 i = (accBit acc i
          || rest.any (fun a => (getByPosition block a).type.isNullable
              && !(columnAt block a).isColumnConst && (columnAt block a).isNullAt i)))
      ∧ (acc2 = none → acc = none) := by
  induction rest generalizing acc with
  | nil => exact ⟨acc, rfl, hacc, fun i _ => by simp, fun h => h⟩
  | cons a t ih =>
      have hsc_t : ∀ x ∈ t, (getByPosition block x).type.isNullable = true →
          (columnAt block x).onlyNull = false := fun x hx => hsc x (by simp [hx])
      have hshape_t : ∀ x ∈ t, (getByPosition block x).type.isNullable = true →
          (columnAt block x).isColumnConst = false →
          (columnAt block x).isColumnNullable = true := fun x hx => hshape x (by simp [hx])
      have hmap_t : ∀ x ∈ t, ∀ inner nm, columnAt block x = Column.nullableCol inner nm →
          nm.length = n := fun x hx => hmap x (by simp [hx])
      by_cases h1 : (getByPosition block a).type.isNullable = true
      · have honly : (columnAt block a).onlyNull = false := hsc a (by simp) h1
        have honly2 : ((getByPosition block a).column.getD default).onlyNull = false := by
          simpa [columnAt] using honly
        by_cases h2 : (columnAt block a).isColumnConst = true
        · obtain ⟨acc2, heq, hlen, hbits, hnone⟩ := ih acc hsc_t hshape_t hmap_t hacc
          refine ⟨acc2, ?_, hlen, ?_, hnone⟩
          · rw [wrapLoop, if_neg (by simp [h1]), if_neg (by simp [honly2]),
              if_pos (by simpa [columnAt] using h2)]
            exact heq
          · intro i hi
            rw [hbits i hi]
            simp [h2]
        · have h3 : (columnAt block a).isColumnNullable = true :=
            hshape a (by simp) h1 (by simpa using h2)
          obtain ⟨inner, nm, hcc⟩ : ∃ inner nm,
              columnAt block a = Column.nullableCol inner nm := by
            rcases hc2 : columnAt block a with d | m | ⟨i2, nm2⟩ | ⟨k, in2⟩ | ⟨u, idx⟩ <;>
              rw [hc2] at h3 <;> simp [Column.isColumnNullable] at h3
            exact ⟨i2, nm2, rfl⟩
          have hnm : nm.length = n := hmap a (by simp) inner nm hcc
          have hcc2 : (getByPosition block a).column.getD default =
              Column.nullableCol inner nm := by simpa [columnAt] using hcc
          have hstep : wrapLoop block result n (a :: t) acc =
              wrapLoop block result n t (some (match acc with
                | none => nm
                | some res => orNullMaps res nm)) := by
            rw [wrapLoop, if_neg (by simp [h1]), if_neg (by simp [honly2]),
              if_neg (by simp [hcc2, Column.isColumnConst])]
            rw [hcc2]
            cases acc <;> rfl
          cases acc with
          | none =>
              obtain ⟨acc2, heq, hlen, hbits, hnone⟩ :=
                ih (some nm) hsc_t hshape_t hmap_t (Or.inr ⟨nm, rfl, hnm⟩)
              refine ⟨acc2, by rw [hstep]; exact heq, hlen, ?_, ?_⟩
              · intro i hi
                rw [hbits i hi]
                simp only [accBit, List.any_cons]
                rw [hcc]
                simp only [h1, h2, Column.isNullAt, Bool.not_false, Bool.true_and,
                  Bool.false_or]
                have h2f : (columnAt block a).isColumnConst = false := by simpa using h2
                rw [hcc] at h2f
                simp [Column.isNullAt, Bool.or_assoc, h2f]
              · intro hv
                exact absurd (hnone hv) (by simp)
          | some m =>
              have hmlen : m.length = n := by
                rcases hacc with h | ⟨mm, hmm, hl⟩
                · exact absurd h (by simp)
                · cases Option.some.inj hmm; exact hl
              obtain ⟨acc2, heq, hlen, hbits, hnone⟩ :=
                ih (some (orNullMaps m nm)) hsc_t hshape_t hmap_t
                  (Or.inr ⟨orNullMaps m nm, rfl, by rw [orNullMaps_length]; exact hmlen⟩)
              refine ⟨acc2, by rw [hstep]; exact heq, hlen, ?_, ?_⟩
              · intro i hi
                rw [hbits i hi]
                simp only [accBit, List.any_cons]
                rw [orNullMaps_getD m nm i (by rw [hmlen]; exact hi), hcc]
                have h2f : (columnAt block a).isColumnConst = false := by simpa using h2
                rw [hcc] at h2f
                simp only [h1, Column.isNullAt, Bool.true_and, h2f, Bool.not_false]
                cases m.getD i false <;> cases nm.getD i false <;>
                  cases (t.any fun x => (getByPosition block x).type.isNullable
                    && !(columnAt block x).isColumnConst && (columnAt block x).isNullAt i) <;> rfl
              · intro hv
                exact absurd (hnone hv) (by simp)
      · obtain ⟨acc2, heq, hlen, hbits, hnone⟩ := ih acc hsc_t hshape_t hmap_t hacc
        refine ⟨acc2, ?_, hlen, ?_, hnone⟩
        · rw [wrapLoop, if_pos (by simpa using h1)]
          exact heq
        · intro i hi
          rw [hbits i hi]
          simp [h1]

/-- C5 (amended): through the null-handling wrap, with no constant-null
argument, the produced result's null bit at row `i` is true iff some nullable
non-constant argument has its null bit at `i` true, or the kernel's own result
column has its null bit at `i` true. -/
theorem C5_wrapInNullable_bitmap (src : Column) (block : Block) (args : List Nat)
    (result n i : Nat)
    (hsc : ∀ a ∈ args, (getByPosition block a).type.isNullable = true →
      (columnAt block a).onlyNull = false)
    (hshape : ∀ a ∈ args, (getByPosition block a).type.isNullable = true →
      (columnAt block a).isColumnConst = false → (columnAt block a).isColumnNullable = true)
    (hmap : ∀ a ∈ args, ∀ inner nm, columnAt block a = Column.nullableCol inner nm →
      nm.length = n)
    (hsrcmap : ∀ inner nm, src = Column.nullableCol inner nm → nm.length = n)
    (hsrcnulls : ∀ j, src.isNullAt j = true → src.isColumnNullable = true ∨ src.onlyNull = true)
    (hi : i < n) :
    (wrapInNullable src block args result n).isNullAt i
      = (src.isNullAt i || args.any (fun a => (getByPosition block a).type.isNullable
          && !(columnAt block a).isColumnConst && (columnAt block a).isNullAt i)) := by
  by_cases hON : src.onlyNull = true
  · rcases src with d | m | ⟨sinner, snm⟩ | ⟨k, sinner⟩ | ⟨u, idx⟩
    · exact absurd hON (by simp [Column.onlyNull])
    · exact absurd hON (by simp [Column.onlyNull])
    · exact absurd hON (by simp [Column.onlyNull])
    · simp only [Column.onlyNull] at hON
      rw [wrapInNullable, if_pos (by simp [Column.onlyNull, hON])]
      simp [Column.isNullAt, hON]
    · exact absurd hON (by simp [Column.onlyNull])
  · have hONf : src.onlyNull = false := by simpa using hON
    rcases src with d | m | ⟨sinner, snm⟩ | ⟨k, sinner⟩ | ⟨u, idx⟩
    · obtain ⟨acc2, heq, hlen2, hbits, hnone⟩ :=
        wrapLoop_spec block result n args none hsc hshape hmap (Or.inl rfl)
      rw [wrapInNullable, if_neg (by simp [Column.onlyNull])]
      simp only [heq]
      cases acc2 with
      | none =>
          have hany := hbits i hi
          simp only [accBit, Bool.false_or] at hany
          rw [← hany]
          simp [makeNullableColumn, Column.isNullAt, getD_replicate_false]
      | some m2 =>
          have hbit := hbits i hi
          simp only [accBit, Bool.false_or] at hbit
          rw [← hbit]
          simp [Column.isColumnConst, Column.isNullAt]
    · obtain ⟨acc2, heq, hlen2, hbits, hnone⟩ :=
        wrapLoop_spec block result n args none hsc hshape hmap (Or.inl rfl)
      rw [wrapInNullable, if_neg (by simp [Column.onlyNull])]
      simp only [heq]
      cases acc2 with
      | none =>
          have hany := hbits i hi
          simp only [accBit, Bool.false_or] at hany
          rw [← hany]
          simp [makeNullableColumn, Column.isNullAt, getD_replicate_false]
      | some m2 =>
          have hbit := hbits i hi
          simp only [accBit, Bool.false_or] at hbit
          rw [← hbit]
          simp [Column.isColumnConst, Column.isNullAt]
    · have hlen : snm.length = n := hsrcmap sinner snm rfl
      obtain ⟨acc2, heq, hlen2, hbits, hnone⟩ :=
        wrapLoop_spec block result n args (some snm) hsc hshape hmap (Or.inr ⟨snm, rfl, hlen⟩)
      rw [wrapInNullable, if_neg (by simp [Column.onlyNull])]
      simp only [heq]
      cases acc2 with
      | none => exact absurd (hnone rfl) (by simp)
      | some m2 =>
          have hbit := hbits i hi
          simp only [accBit] at hbit
          simp only [Column.isNullAt]
          rw [← hbit]
          by_cases hsc2 : sinner.isColumnConst = true
          · rw [if_pos hsc2]
            simp [Column.isNullAt]
          · rw [if_neg hsc2]
            simp [Column.isNullAt]
    · simp only [Column.onlyNull] at hONf
      obtain ⟨acc2, heq, hlen2, hbits, hnone⟩ :=
        wrapLoop_spec block result n args none hsc hshape hmap (Or.inl rfl)
      rw [wrapInNullable, if_neg (by simp [Column.onlyNull, hONf])]
      simp only [heq]
      cases acc2 with
      | none =>
          have hany := hbits i hi
          simp only [accBit, Bool.false_or] at hany
          rw [← hany]
          rcases sinner with d2 | m2 | ⟨i2, nm2⟩ | ⟨k2, in2⟩ | ⟨u2, idx2⟩
          · simp [makeNullableColumn, ColumnConst.create, Column.isNullAt,
              getD_replicate_false]
          · simp [makeNullableColumn, ColumnConst.create, Column.isNullAt,
              getD_replicate_false]
          · simp [makeNullableColumn, ColumnConst.create, Column.isNullAt]
          · simp [Column.isNullAt] at hONf
            simp [makeNullableColumn, ColumnConst.create, Column.isNullAt,
              getD_replicate_false, hONf]
          · simp [Column.isNullAt] at hONf
            simp [makeNullableColumn, ColumnConst.create, Column.isNullAt,
              getD_replicate_false, hONf]
      | some m2 =>
          have hbit := hbits i hi
          simp only [accBit, Bool.false_or] at hbit
          rw [← hbit]
          simp only [Column.isColumnConst, if_true]
          simp [Column.isNullAt, Column.convertToFullColumnIfConst, hONf]
    · obtain ⟨acc2, heq, hlen2, hbits, hnone⟩ :=
        wrapLoop_spec block result n args none hsc hshape hmap (Or.inl rfl)
      rw [wrapInNullable, if_neg (by simp [Column.onlyNull])]
      simp only [heq]
      have hdn : Column.isNullAt (Column.dictCol u idx) i = false := by
        cases h : Column.isNullAt (Column.dictCol u idx) i
        · rfl
        · rcases hsrcnulls i h with h2 | h2 <;>
            simp [Column.isColumnNullable, Column.onlyNull] at h2
      cases acc2 with
      | none =>
          have hany := hbits i hi
          simp only [accBit, Bool.false_or] at hany
          rw [← hany]
          rw [show Column.isNullAt (Column.dictCol u idx) i = false from hdn]
          simp [makeNullableColumn, Column.isNullAt, getD_replicate_false]
      | some m2 =>
          have hbit := hbits i hi
          simp only [accBit, Bool.false_or] at hbit
          rw [← hbit]
          rw [show Column.isNullAt (Column.dictCol u idx) i = false from hdn]
          simp [Column.isColumnConst, Column.isNullAt]

/-- C5 counterexample: with no constant-null argument and one nullable
argument whose bit at row 0 is false, the wrapped result's bit at row 0 is
nevertheless true, because `wrapInNullable` also ORs in the kernel result's
own null map (IFunction.cpp lines 55-59) — so the claimed iff (argument bits
only) fails. -/
theorem C5_counterexample :
    (wrapInNullable src5 block5 [0] 1 1).isNullAt 0 = true
    ∧ ([0].any (fun a => (getByPosition block5 a).type.isNullable
        && !(columnAt block5 a).isColumnConst && (columnAt block5 a).isNullAt 0)) = false
    ∧ (∀ a ∈ [0], (getByPosition block5 a).type.isNullable = true →
        (columnAt block5 a).onlyNull = false) := by
  refine ⟨by decide, by decide, by decide⟩

/-- Witness for C5: the amended bitmap theorem applied at a concrete
non-nullable kernel result and one nullable argument. -/
theorem C5_wrapInNullable_bitmap_witness :
    (wrapInNullable (Column.dense [7]) block5 [0] 1 1).isNullAt 0
      = ((Column.dense [7]).isNullAt 0
          || [0].any (fun a => (getByPosition block5 a).type.isNullable
              && !(columnAt block5 a).isColumnConst && (columnAt block5 a).isNullAt 0)) :=
  C5_wrapInNullable_bitmap (Column.dense [7]) block5 [0] 1 1 0
    (by decide) (by decide)
    (by intro a ha inner nm h
        have ha0 : a = 0 := by simpa using ha
        subst ha0
        have hc : columnAt block5 0 = Column.nullableCol (Column.dense [5]) [false] := by decide
        rw [hc] at h
        injection h with h1 h2
        rw [← h2]
        rfl)
    (fun inner nm h => Column.noConfusion h)
    (fun j h => by simp [Column.isNullAt] at h)
    (by decide)

/-! ### C9: success writes exactly the result slot; faults write nothing -/
/-- Frame lemma for the constant folder: when it reports the call handled,
the returned batch is the caller's batch with only the result slot written. -/
theorem constArgsAux_frame
    (recurse : Block → List Nat → Nat → Nat → Except Err (Block × Nat))
    (K : IFunction) (block : Block) (args : List Nat) (result n : Nat)
    (b2 : Block) (cnt : Nat)
    (h : defaultImplementationForConstantArgumentsAux recurse K block args result n
      = .ok (some b2, cnt)) :
    ∃ c, b2 = setColumn block result c := by
  simp only [defaultImplementationForConstantArgumentsAux, bind, Except.bind, pure, Except.pure,
    throw, throwThe, MonadExceptOf.throw] at h
  split at h
  · cases h
  · split at h
    · simp at h
    · split at h
      · cases h
      · split at h
        · cases h
        · rename_i v heq
          refine ⟨ColumnConst.create (columnAt v.1 args.length) n, ?_⟩
          have := Except.ok.inj h
          have h1 := congrArg Prod.fst this
          simpa using h1.symm

/-- Frame lemma for the null handler. -/
theorem nullsAux_frame
    (recurse : Block → List Nat → Nat → Nat → Except Err (Block × Nat))
    (K : IFunction) (block : Block) (args : List Nat) (result n : Nat)
    (b2 : Block) (cnt : Nat)
    (h : defaultImplementationForNullsAux recurse K block args result n
      = .ok (some b2, cnt)) :
    ∃ c, b2 = setColumn block result c := by
  simp only [defaultImplementationForNullsAux, bind, Except.bind, pure, Except.pure,
    throw, throwThe, MonadExceptOf.throw] at h
  split at h
  · simp at h
  · split at h
    · refine ⟨createColumnConstNull (getByPosition block result).type n, ?_⟩
      have := Except.ok.inj h
      have h1 := congrArg Prod.fst this
      simpa using h1.symm
    · split at h
      · split at h
        · cases h
        · rename_i v heq
          refine ⟨wrapInNullable (columnAt v.1 result) block args result n, ?_⟩
          have := Except.ok.inj h
          have h1 := congrArg Prod.fst this
          simpa using h1.symm
      · simp at h

/-- Frame lemma for the inner dispatcher, given a kernel whose `executeImpl`
writes only the result slot on success. -/
theorem executeWithout_frame (K : IFunction)
    (hK : ∀ b as r m b2, K.executeImpl b as r m = .ok b2 → ∃ c, b2 = setColumn b r c)
    (fuel : Nat) (block : Block) (args : List Nat) (result n : Nat)
    (b2 : Block) (cnt : Nat)
    (h : executeWithoutColumnsWithDictionary K fuel block args result n = .ok (b2, cnt)) :
    ∃ c, b2 = setColumn block result c := by
  cases fuel with
  | zero => cases h
  | succ f =>
      simp only [executeWithoutColumnsWithDictionary, bind, Except.bind, pure, Except.pure] at h
      split at h
      · cases h
      · rename_i v heqA
        split at h
        · rename_i b cnt2
          obtain ⟨c, hc⟩ := constArgsAux_frame _ K block args result n b cnt2 heqA
          obtain ⟨h1, h2⟩ := Prod.mk.inj (Except.ok.inj h)
          exact ⟨c, h1 ▸ hc⟩
        · split at h
          · cases h
          · rename_i v2 heqB
            split at h
            · rename_i b cnt2
              obtain ⟨c, hc⟩ := nullsAux_frame _ K block args result n b cnt2 heqB
              obtain ⟨h1, h2⟩ := Prod.mk.inj (Except.ok.inj h)
              exact ⟨c, h1 ▸ hc⟩
            · split at h
              · cases h
              · rename_i b heqC
                obtain ⟨c, hc⟩ := hK block args result n b heqC
                obtain ⟨h1, h2⟩ := Prod.mk.inj (Except.ok.inj h)
                exact ⟨c, h1 ▸ hc⟩

/-- C9: given a kernel whose `executeImpl` writes only the result slot of the
batch it is handed, every successful `execute` call returns the caller's batch
with exactly the result slot populated (all other entries unchanged); a
faulting call returns no batch at all — the embedding threads the batch, and
every fault in the source is raised before the single write of the caller's
result slot. -/
theorem C9_execute_frame (K : IFunction)
    (hK : ∀ b as r m b2, K.executeImpl b as r m = .ok b2 → ∃ c, b2 = setColumn b r c)
    (fuel : Nat) (block : Block) (args : List Nat) (result n : Nat)
    (hres : result < block.length) (b2 : Block) (cnt : Nat)
    (h : execute K fuel block args result n = .ok (b2, cnt)) :
    ∃ c, b2 = setColumn block result c
      ∧ (getByPosition b2 result).column = some c
      ∧ ∀ j, j ≠ result → getByPosition b2 j = getByPosition block j := by
  have main : ∃ c, b2 = setColumn block result c := by
    simp only [execute, bind, Except.bind, pure, Except.pure, throw, throwThe,
      MonadExceptOf.throw] at h
    split at h
    · split at h
      · cases h
      · rename_i v heqR
        split at h
        · rename_i tb idxs
          split at h
          · cases h
          · rename_i v2 heqE
            split at h
            · rename_i u0 i0
              obtain ⟨h1, h2⟩ := Prod.mk.inj (Except.ok.inj h)
              exact ⟨_, h1.symm⟩
            · cases h
        · exact executeWithout_frame K hK fuel block args result n b2 cnt h
    · exact executeWithout_frame K hK fuel block args result n b2 cnt h
  obtain ⟨c, hc⟩ := main
  refine ⟨c, hc, ?_, ?_⟩
  · rw [hc, getByPosition_setColumn_self _ _ _ hres]
  · intro j hj
    rw [hc, getByPosition_setColumn_ne _ _ _ _ hj]

/-- Witness for C9: the frame theorem applied at a concrete call. -/
theorem C9_execute_frame_witness :
    ∃ c, (setColumn block9 1 (Column.dense [1, 2])) = setColumn block9 1 c
      ∧ (getByPosition (setColumn block9 1 (Column.dense [1, 2])) 1).column = some c
      ∧ ∀ j, j ≠ 1 →
          getByPosition (setColumn block9 1 (Column.dense [1, 2])) j = getByPosition block9 j :=
  C9_execute_frame K9
    (fun b as r m b2 himpl => ⟨_, (Except.ok.inj himpl).symm⟩)
    1 block9 [0] 1 2 (by decide) (setColumn block9 1 (Column.dense [1, 2])) 1 rfl

/-! ### Dispatch lemmas shared by the execution-path claims -/
theorem dictScan_has (block : Block) (args : List Nat) (st : DictScan) :
    (args.foldl (dictScanStep block) st).has_with_dictionary
      = (st.has_with_dictionary || args.any (fun a => (columnAt block a).isDictColumn)) := by
  induction args generalizing st with
  | nil => simp
  | cons a t ih =>
      rw [List.foldl_cons, ih]
      rcases hc : columnAt block a with d | m | ⟨i2, nm⟩ | ⟨k, i2⟩ | ⟨u, idx⟩ <;>
        by_cases hh : st.has_with_dictionary = true <;>
        simp [dictScanStep, hc, hh, Column.isDictColumn]

theorem removeColumns_no_dict (block : Block) (args : List Nat) (result : Nat)
    (h : args.any (fun a => (columnAt block a).isDictColumn) = false) :
    removeColumnsWithDictionary block args result = .ok none := by
  have hs : (args.foldl (dictScanStep block) {}).has_with_dictionary = false := by
    rw [dictScan_has]
    simp [h]
  simp [removeColumnsWithDictionary, hs, bind, Except.bind, pure, Except.pure]

theorem execute_delegates (K : IFunction) (fuel : Nat) (block : Block) (args : List Nat)
    (result n : Nat)
    (h : args.any (fun a => (columnAt block a).isDictColumn) = false) :
    execute K fuel block args result n
      = executeWithoutColumnsWithDictionary K fuel block args result n := by
  by_cases hd : K.useDefaultImplementationForColumnsWithDictionary = true
  · simp [execute, hd, removeColumns_no_dict block args result h, bind, Except.bind]
  · simp only [Bool.not_eq_true] at hd
    simp [execute, hd]

theorem nullsAux_null_constant
    (recurse : Block → List Nat → Nat → Nat → Except Err (Block × Nat))
    (K : IFunction) (block : Block) (args : List Nat) (result n : Nat)
    (hflag : K.useDefaultImplementationForNulls = true)
    (hne : args ≠ [])
    (hnc : (args.any (fun a => (getByPosition block a).type.onlyNull)) = true) :
    defaultImplementationForNullsAux recurse K block args result n =
      .ok (some (setColumn block result
        (createColumnConstNull (getByPosition block result).type n)), 0) := by
  simp [defaultImplementationForNullsAux, hflag, hne, getNullPresense, hnc,
    bind, Except.bind, pure, Except.pure]

theorem nullsAux_not_applicable
    (recurse : Block → List Nat → Nat → Nat → Except Err (Block × Nat))
    (K : IFunction) (block : Block) (args : List Nat) (result n : Nat)
    (h : (args.isEmpty || !K.useDefaultImplementationForNulls) = true
      ∨ ((args.any (fun a => (getByPosition block a).type.onlyNull)) = false
          ∧ (args.any (fun a => (getByPosition block a).type.isNullable)) = false)) :
    defaultImplementationForNullsAux recurse K block args result n = .ok (none, 0) := by
  rcases h with h | ⟨h1, h2⟩
  · simp [defaultImplementationForNullsAux, h, bind, Except.bind, pure, Except.pure]
  · by_cases he : (args.isEmpty || !K.useDefaultImplementationForNulls) = true
    · simp [defaultImplementationForNullsAux, he, bind, Except.bind, pure, Except.pure]
    · simp only [Bool.not_eq_true] at he
      simp [defaultImplementationForNullsAux, he, getNullPresense, h1, h2,
        bind, Except.bind, pure, Except.pure]

theorem constArgsAux_not_applicable
    (recurse : Block → List Nat → Nat → Nat → Except Err (Block × Nat))
    (K : IFunction) (block : Block) (args : List Nat) (result n : Nat)
    (hchk : (K.getArgumentsThatAreAlwaysConstant.any (fun argNum =>
      argNum < args.length && !(columnAt block (args.getD argNum 0)).isColumnConst)) = false)
    (hna : (args.isEmpty || !K.useDefaultImplementationForConstants
      || !allArgumentsAreConstants block args) = true) :
    defaultImplementationForConstantArgumentsAux recurse K block args result n
      = .ok (none, 0) := by
  simp only [defaultImplementationForConstantArgumentsAux, hchk, Bool.false_eq_true, if_false,
    hna, if_true, bind, Except.bind, pure, Except.pure]

theorem constArgsAux_folds
    (recurse : Block → List Nat → Nat → Nat → Except Err (Block × Nat))
    (K : IFunction) (block : Block) (args : List Nat) (result n : Nat)
    (hchk : (K.getArgumentsThatAreAlwaysConstant.any (fun argNum =>
      argNum < args.length && !(columnAt block (args.getD argNum 0)).isColumnConst)) = false)
    (hne : args ≠ [])
    (hflag : K.useDefaultImplementationForConstants = true)
    (hall : allArgumentsAreConstants block args = true)
    (hconv : ((List.range args.length).any
      (fun i => !K.getArgumentsThatAreAlwaysConstant.contains i)) = true) :
    defaultImplementationForConstantArgumentsAux recurse K block args result n
      = Except.bind
          (recurse ((List.range args.length).map
              (constArgsTempEntry block args K.getArgumentsThatAreAlwaysConstant)
              ++ [getByPosition block result])
            (List.range args.length) args.length
            (blockRows ((List.range args.length).map
              (constArgsTempEntry block args K.getArgumentsThatAreAlwaysConstant)
              ++ [getByPosition block result])))
          (fun v => .ok (some (setColumn block result
            (ColumnConst.create (columnAt v.1 args.length) n)), v.2)) := by
  simp only [defaultImplementationForConstantArgumentsAux, hchk, hne, hflag, hall, hconv,
    Bool.false_eq_true, if_false, List.isEmpty_eq_true, Bool.not_true, Bool.or_self,
    Bool.or_false, Bool.false_or, Bool.not_false, if_true, bind, Except.bind, pure, Except.pure]

theorem executeWithout_of_constHandled (K : IFunction) (fuel : Nat) (block : Block)
    (args : List Nat) (result n : Nat) (b : Block) (cnt : Nat)
    (h : defaultImplementationForConstantArgumentsAux
      (executeWithoutColumnsWithDictionary K fuel) K block args result n = .ok (some b, cnt)) :
    executeWithoutColumnsWithDictionary K (fuel + 1) block args result n = .ok (b, cnt) := by
  simp [executeWithoutColumnsWithDictionary, h, bind, Except.bind, pure, Except.pure]

theorem executeWithout_of_nullsHandled (K : IFunction) (fuel : Nat) (block : Block)
    (args : List Nat) (result n : Nat) (b : Block) (cnt c0 : Nat)
    (hA : defaultImplementationForConstantArgumentsAux
      (executeWithoutColumnsWithDictionary K fuel) K block args result n = .ok (none, c0))
    (hB : defaultImplementationForNullsAux
      (executeWithoutColumnsWithDictionary K fuel) K block args result n = .ok (some b, cnt)) :
    executeWithoutColumnsWithDictionary K (fuel + 1) block args result n = .ok (b, cnt) := by
  simp [executeWithoutColumnsWithDictionary, hA, hB, bind, Except.bind, pure, Except.pure]

theorem executeWithout_of_kernel (K : IFunction) (fuel : Nat) (block : Block)
    (args : List Nat) (result n : Nat) (b : Block) (c0 c1 : Nat)
    (hA : defaultImplementationForConstantArgumentsAux
      (executeWithoutColumnsWithDictionary K fuel) K block args result n = .ok (none, c0))
    (hB : defaultImplementationForNullsAux
      (executeWithoutColumnsWithDictionary K fuel) K block args result n = .ok (none, c1))
    (hI : K.executeImpl block args result n = .ok b) :
    executeWithoutColumnsWithDictionary K (fuel + 1) block args result n = .ok (b, 1) := by
  simp [executeWithoutColumnsWithDictionary, hA, hB, hI, bind, Except.bind, pure, Except.pure]

/-! ### C2: the constant-null short-circuit -/
theorem createColumnConstNull_create (t : DataType) (m n : Nat) :
    ColumnConst.create (createColumnConstNull t m) n = createColumnConstNull t n := by
  cases t <;> rfl

/-- C2 (amended): for a kernel opting into default null handling, a non-empty
argument list with a constant-null (always-null typed) argument makes
`execute` populate the result slot with a constant null of length `n` without
ever invoking `executeImpl` (invocation count 0) — provided the declared
must-remain-constant positions hold constant columns, no argument column is
dictionary-encoded, and (when constant folding applies) some argument
position is non-exempt. -/
theorem C2_null_short_circuit (K : IFunction) (fuel : Nat) (block : Block)
    (args : List Nat) (result n : Nat)
    (hflagN : K.useDefaultImplementationForNulls = true)
    (hne : args ≠ [])
    (hnc : (args.any (fun a => (getByPosition block a).type.onlyNull)) = true)
    (hchk : ∀ i ∈ K.getArgumentsThatAreAlwaysConstant, i < args.length →
      (columnAt block (args.getD i 0)).isColumnConst = true)
    (hnodict : args.any (fun a => (columnAt block a).isDictColumn) = false)
    (hguard : K.useDefaultImplementationForConstants = true →
      allArgumentsAreConstants block args = true →
      ∃ j, j < args.length ∧ j ∉ K.getArgumentsThatAreAlwaysConstant)
    (hwf : ∀ a ∈ args, (columnAt block a).WF = true) :
    execute K (fuel + 2) block args result n =
      .ok (setColumn block result
        (createColumnConstNull (getByPosition block result).type n), 0) := by
  rw [execute_delegates K (fuel + 2) block args result n hnodict]
  have hchkB : (K.getArgumentsThatAreAlwaysConstant.any (fun argNum =>
      argNum < args.length && !(columnAt block (args.getD argNum 0)).isColumnConst)) = false := by
    rw [List.any_eq_false]
    intro i hi
    by_cases hlt : i < args.length
    · have hcc := hchk i hi hlt
      simp only [columnAt] at hcc
      simp only [columnAt, hcc, Bool.not_true, Bool.and_false]
      simp
    · simp [hlt]
  by_cases hfold : K.useDefaultImplementationForConstants = true
      ∧ allArgumentsAreConstants block args = true
  · obtain ⟨j, hj, hjn⟩ := hguard hfold.1 hfold.2
    have hconv : ((List.range args.length).any
        (fun i => !K.getArgumentsThatAreAlwaysConstant.contains i)) = true :=
      List.any_eq_true.mpr ⟨j, List.mem_range.mpr hj, by simpa using hjn⟩
    set tb := (List.range args.length).map
        (constArgsTempEntry block args K.getArgumentsThatAreAlwaysConstant)
        ++ [getByPosition block result] with htb
    have hlen_map : ((List.range args.length).map
        (constArgsTempEntry block args K.getArgumentsThatAreAlwaysConstant)).length
        = args.length := by simp
    have hcolAt : ∀ i, i < args.length →
        columnAt tb i
          = (constArgsTempEntry block args K.getArgumentsThatAreAlwaysConstant i).column.getD
              default := by
      intro i hlt
      rw [htb]
      simp only [columnAt]
      rw [getByPosition_append_left ((List.range args.length).map
            (constArgsTempEntry block args K.getArgumentsThatAreAlwaysConstant))
          [getByPosition block result] i (by simpa using hlt),
        getByPosition_rangeMap _ _ _ hlt]
    have hchkB2 : (K.getArgumentsThatAreAlwaysConstant.any (fun argNum =>
        argNum < (List.range args.length).length
          && !(columnAt tb ((List.range args.length).getD argNum 0)).isColumnConst)) = false := by
      rw [List.any_eq_false]
      intro i hi
      by_cases hlt : i < args.length
      · have hgd : (List.range args.length).getD i 0 = i := getD_range_of_lt _ _ _ hlt
        have : columnAt tb i = columnAt block (args.getD i 0) := by
          rw [hcolAt i hlt, constArgsTempEntry_of_mem block args _ i hi]
          rfl
        have hcc := hchk i hi hlt
        rw [← this] at hcc
        simp only [hgd] at *
        simp only [hcc, Bool.not_true, Bool.and_false]
        simp
      · simp [hlt]
    have hna2 : ((List.range args.length).isEmpty || !K.useDefaultImplementationForConstants
        || !allArgumentsAreConstants tb (List.range args.length)) = true := by
      have := constFold_temp_not_all_const K block args result hfold.2 ⟨j, hj, hjn⟩ hwf
      rw [← htb] at this
      simp [this]
    have hA2 := constArgsAux_not_applicable (executeWithoutColumnsWithDictionary K fuel) K
      tb (List.range args.length) args.length (blockRows tb) hchkB2 hna2
    have hnc2 : ((List.range args.length).any
        (fun a => (getByPosition tb a).type.onlyNull)) = true := by
      obtain ⟨a, ha, hao⟩ := List.any_eq_true.mp hnc
      obtain ⟨k, hk, hke⟩ := List.mem_iff_getElem.mp ha
      refine List.any_eq_true.mpr ⟨k, List.mem_range.mpr hk, ?_⟩
      have hgd : args.getD k 0 = a := by
        rw [List.getD_eq_getElem?_getD, List.getElem?_eq_getElem hk]
        simpa using hke
      have : getByPosition tb k
          = constArgsTempEntry block args K.getArgumentsThatAreAlwaysConstant k := by
        rw [htb, getByPosition_append_left ((List.range args.length).map
              (constArgsTempEntry block args K.getArgumentsThatAreAlwaysConstant))
            [getByPosition block result] k (by simpa using hk),
          getByPosition_rangeMap _ _ _ hk]
      rw [this, constArgsTempEntry_type, hgd]
      exact hao
    have hB2 := nullsAux_null_constant (executeWithoutColumnsWithDictionary K fuel) K
      tb (List.range args.length) args.length (blockRows tb) hflagN
      (by simpa using hne) hnc2
    have hinner : executeWithoutColumnsWithDictionary K (fuel + 1) tb
        (List.range args.length) args.length (blockRows tb)
        = .ok (setColumn tb args.length
            (createColumnConstNull (getByPosition tb args.length).type (blockRows tb)), 0) :=
      executeWithout_of_nullsHandled K fuel tb (List.range args.length) args.length
        (blockRows tb) _ 0 0 hA2 hB2
    have hrestype : getByPosition tb args.length = getByPosition block result := by
      rw [htb, getByPosition_append_right _ _ _ (by simp)]
      simp [getByPosition]
    have hfolds := constArgsAux_folds (executeWithoutColumnsWithDictionary K (fuel + 1)) K
      block args result n hchkB hne hfold.1 hfold.2 hconv
    refine executeWithout_of_constHandled K (fuel + 1) block args result n _ 0 ?_
    rw [hfolds, ← htb, hinner]
    simp only [Except.bind]
    rw [columnAt_setColumn_self tb args.length _ (by rw [htb]; simp)]
    rw [hrestype, createColumnConstNull_create]
  · have hna : (args.isEmpty || !K.useDefaultImplementationForConstants
        || !allArgumentsAreConstants block args) = true := by
      by_cases hc : K.useDefaultImplementationForConstants = true
      · have : allArgumentsAreConstants block args = false := by
          rcases hall : allArgumentsAreConstants block args with _ | _
          · rfl
          · exact absurd ⟨hc, hall⟩ hfold
        simp [this]
      · simp only [Bool.not_eq_true] at hc
        simp [hc]
    have hA1 := constArgsAux_not_applicable (executeWithoutColumnsWithDictionary K (fuel + 1))
      K block args result n hchkB hna
    have hB1 := nullsAux_null_constant (executeWithoutColumnsWithDictionary K (fuel + 1))
      K block args result n hflagN hne hnc
    exact executeWithout_of_nullsHandled K (fuel + 1) block args result n _ 0 0 hA1 hB1

/-- C2 counterexample: a kernel opting into default null handling, called on a
non-empty argument list containing a constant-null argument, for which the
call does not populate the result with a constant null but faults with
`IllegalColumn`: the must-remain-constant check (IFunction.cpp:160-162) runs
before the null short-circuit and argument 1 is not constant. -/
theorem C2_counterexample :
    K2c.useDefaultImplementationForNulls = true
    ∧ ([0, 1].any (fun a => (getByPosition block2 a).type.onlyNull)) = true
    ∧ (columnAt block2 0).onlyNull = true
    ∧ execute K2c 2 block2 [0, 1] 2 2 = .error Err.illegalColumn := by
  exact ⟨rfl, by decide, by decide, rfl⟩

/-- Witness for C2: the amended theorem applied at a concrete call; the
result slot receives a constant null of the declared result type and the
kernel is never invoked. -/
theorem C2_null_short_circuit_witness :
    execute K2w 2 block2 [0, 1] 2 2 =
      .ok (setColumn block2 2 (createColumnConstNull (getByPosition block2 2).type 2), 0) :=
  C2_null_short_circuit K2w 0 block2 [0, 1] 2 2 rfl (by decide) (by decide)
    (by intro i hi; simp [K2w, K2c] at hi)
    (by decide)
    (fun hc _ => absurd hc (by decide))
    (by decide)

theorem headD_mem {l : List Nat} (h : l ≠ []) : l.headD 0 ∈ l := by
  cases l with
  | nil => exact absurd rfl h
  | cons a t => simp [List.headD]

theorem rangeMap_const {β : Type} (m : Nat) (c : β) :
    (List.range m).map (fun _ => c) = List.replicate m c := by
  apply List.ext_getElem (by simp)
  intro i h1 h2
  simp

/-- C4: for a kernel opting into default constant handling with a non-empty
all-constant argument list (and some non-exempt position), `execute` stores a
constant column equal to broadcasting the one-row evaluation to length `n`,
with one kernel invocation; and this equals, row by row, the result of
running the kernel directly on the same values materialized as dense
length-`n` columns. -/
theorem C4_constant_folding (K : IFunction) (fuel : Nat) (block : Block)
    (args : List Nat) (result n : Nat) (g : List Val → Val) (v : Nat → Val)
    (hflagC : K.useDefaultImplementationForConstants = true)
    (hne : args ≠ [])
    (hcols : ∀ a ∈ args, columnAt block a = Column.constCol n (Column.dense [v a]))
    (htypes : ∀ a ∈ args, (getByPosition block a).type = DataType.base)
    (hguard : ∃ j, j < args.length ∧ j ∉ K.getArgumentsThatAreAlwaysConstant)
    (himpl : K.executeImpl = pointwiseKernel g)
    (hargsblk : ∀ a ∈ args, a < block.length)
    (hn : 0 < n) :
    ∃ res, execute K (fuel + 2) block args result n = .ok (setColumn block result res, 1)
      ∧ res.isColumnConst = true
      ∧ res.materialize = List.replicate n (some (g (args.map v)))
      ∧ ∃ d, pointwiseKernel g (materializeArgsBlock block args) args result n
          = .ok (setColumn (materializeArgsBlock block args) result (Column.dense d))
        ∧ (Column.dense d).materialize = List.replicate n (some (g (args.map v))) := by
  have hnodict : args.any (fun a => (columnAt block a).isDictColumn) = false := by
    rw [List.any_eq_false]
    intro a ha
    simp [hcols a ha, Column.isDictColumn]
  have hall : allArgumentsAreConstants block args = true := by
    rw [allArgumentsAreConstants, List.all_eq_true]
    intro a ha
    simp [hcols a ha, Column.isColumnConst]
  have hwf : ∀ a ∈ args, (columnAt block a).WF = true := by
    intro a ha
    rw [hcols a ha]
    rfl
  have hchkB : (K.getArgumentsThatAreAlwaysConstant.any (fun argNum =>
      argNum < args.length && !(columnAt block (args.getD argNum 0)).isColumnConst)) = false := by
    rw [List.any_eq_false]
    intro i _
    by_cases hlt : i < args.length
    · have hm : args.getD i 0 ∈ args := getD_mem args i 0 hlt
      have hcc : (columnAt block (args.getD i 0)).isColumnConst = true := by
        rw [hcols _ hm]
        rfl
      rw [List.getD_eq_getElem?_getD] at hcc
      simp [hcc]
    · simp [hlt]
  obtain ⟨j, hj, hjn⟩ := hguard
  have hconv : ((List.range args.length).any
      (fun i => !K.getArgumentsThatAreAlwaysConstant.contains i)) = true :=
    List.any_eq_true.mpr ⟨j, List.mem_range.mpr hj, by simpa using hjn⟩
  set tb := (List.range args.length).map
      (constArgsTempEntry block args K.getArgumentsThatAreAlwaysConstant)
      ++ [getByPosition block result] with htb
  have htbentry : ∀ k, k < args.length → getByPosition tb k
      = constArgsTempEntry block args K.getArgumentsThatAreAlwaysConstant k := by
    intro k hk
    rw [htb, getByPosition_append_left ((List.range args.length).map
          (constArgsTempEntry block args K.getArgumentsThatAreAlwaysConstant))
        [getByPosition block result] k (by simpa using hk),
      getByPosition_rangeMap _ _ _ hk]
  have htbcol : ∀ k, k < args.length → columnAt tb k
      = (if k ∈ K.getArgumentsThatAreAlwaysConstant
          then Column.constCol n (Column.dense [v (args.getD k 0)])
          else Column.dense [v (args.getD k 0)]) := by
    intro k hk
    have hm : args.getD k 0 ∈ args := getD_mem args k 0 hk
    by_cases hmem : k ∈ K.getArgumentsThatAreAlwaysConstant
    · rw [if_pos hmem]
      simp only [columnAt, htbentry k hk, constArgsTempEntry_of_mem _ _ _ _ hmem]
      show columnAt block (args.getD k 0) = _
      rw [hcols _ hm]
    · rw [if_neg hmem]
      simp only [columnAt, htbentry k hk, constArgsTempEntry_of_not_mem _ _ _ _ hmem]
      show getDataColumnPtr (columnAt block (args.getD k 0)) = _
      rw [hcols _ hm]
      rfl
  have hvalAt0 : ∀ k, k < args.length → (columnAt tb k).valAt 0 = v (args.getD k 0) := by
    intro k hk
    rw [htbcol k hk]
    by_cases hmem : k ∈ K.getArgumentsThatAreAlwaysConstant
    · rw [if_pos hmem]
      rfl
    · rw [if_neg hmem]
      rfl
  have hchk2 : (K.getArgumentsThatAreAlwaysConstant.any (fun argNum =>
      argNum < (List.range args.length).length
        && !(columnAt tb ((List.range args.length).getD argNum 0)).isColumnConst)) = false := by
    rw [List.any_eq_false]
    intro i hi
    by_cases hlt : i < args.length
    · have hgd : (List.range args.length).getD i 0 = i := getD_range_of_lt _ _ _ hlt
      rw [hgd]
      have := htbcol i hlt
      rw [if_pos hi] at this
      simp [this, Column.isColumnConst]
    · simp [hlt]
  have hna2 : ((List.range args.length).isEmpty || !K.useDefaultImplementationForConstants
      || !allArgumentsAreConstants tb (List.range args.length)) = true := by
    have := constFold_temp_not_all_const K block args result hall ⟨j, hj, hjn⟩ hwf
    rw [← htb] at this
    simp [this]
  have hA2 := constArgsAux_not_applicable (executeWithoutColumnsWithDictionary K fuel) K
    tb (List.range args.length) args.length (blockRows tb) hchk2 hna2
  have htbtypes : ∀ k, k < args.length → (getByPosition tb k).type = DataType.base := by
    intro k hk
    rw [htbentry k hk, constArgsTempEntry_type]
    exact htypes _ (getD_mem args k 0 hk)
  have hB2 := nullsAux_not_applicable (executeWithoutColumnsWithDictionary K fuel) K
    tb (List.range args.length) args.length (blockRows tb)
    (Or.inr ⟨by
        rw [List.any_eq_false]
        intro k hk
        rw [htbtypes k (List.mem_range.mp hk)]
        simp [DataType.onlyNull],
      by
        rw [List.any_eq_false]
        intro k hk
        rw [htbtypes k (List.mem_range.mp hk)]
        simp [DataType.isNullable]⟩)
  have hker : K.executeImpl tb (List.range args.length) args.length (blockRows tb)
      = .ok (setColumn tb args.length (Column.dense
        ((List.range (columnAt tb ((List.range args.length).headD 0)).size).map
          (fun i => g ((List.range args.length).map
            (fun a => (columnAt tb a).valAt i)))))) := by
    rw [himpl]
    rfl
  have hinner := executeWithout_of_kernel K fuel tb (List.range args.length) args.length
    (blockRows tb) _ 0 0 hA2 hB2 hker
  have hfolds := constArgsAux_folds (executeWithoutColumnsWithDictionary K (fuel + 1)) K
    block args result n hchkB hne hflagC hall hconv
  set m1 := (columnAt tb ((List.range args.length).headD 0)).size with hm1
  set L := (List.range m1).map
      (fun i => g ((List.range args.length).map (fun a => (columnAt tb a).valAt i))) with hL
  have hlenpos : 0 < args.length := List.length_pos.mpr hne
  have hhead0 : (List.range args.length).headD 0 = 0 := by
    cases hr : List.range args.length with
    | nil => exact absurd hr (by simpa using Nat.pos_iff_ne_zero.mp hlenpos)
    | cons x t =>
        have : x = 0 := by
          have := List.range_succ_eq_map (args.length - 1)
          rw [show args.length = args.length - 1 + 1 from (Nat.succ_pred_eq_of_pos hlenpos).symm,
            this] at hr
          exact (List.cons.inj hr).1.symm
        simp [this]
  have hm1pos : 0 < m1 := by
    rw [hm1, hhead0, htbcol 0 hlenpos]
    by_cases hmem : 0 ∈ K.getArgumentsThatAreAlwaysConstant
    · rw [if_pos hmem]
      exact hn
    · rw [if_neg hmem]
      exact Nat.one_pos
  have hexec : executeWithoutColumnsWithDictionary K (fuel + 2) block args result n
      = .ok (setColumn block result (Column.constCol n (Column.dense L)), 1) := by
    refine executeWithout_of_constHandled K (fuel + 1) block args result n _ 1 ?_
    rw [hfolds, ← htb, hinner]
    simp only [Except.bind]
    rw [columnAt_setColumn_self tb args.length _ (by rw [htb]; simp)]
    rfl
  have hrow0 : (List.range args.length).map (fun a => (columnAt tb a).valAt 0)
      = args.map v := by
    rw [List.map_congr_left (fun k hk => hvalAt0 k (List.mem_range.mp hk))]
    exact rangeMap_getD args v 0
  have hL0 : L.getD 0 0 = g (args.map v) := by
    rw [hL, getD_map_of_lt (List.range m1) _ 0 0 0 (by simpa using hm1pos),
      getD_range_of_lt _ _ _ hm1pos, hrow0]
  refine ⟨Column.constCol n (Column.dense L),
    by rw [execute_delegates K (fuel + 2) block args result n hnodict]; exact hexec,
    rfl, ?_, ?_⟩
  · show List.replicate n ((Column.dense L).materialize.getD 0 none) = _
    have : (Column.dense L).materialize.getD 0 none = some (L.getD 0 0) := by
      show (L.map some).getD 0 none = some (L.getD 0 0)
      rw [getD_map_of_lt L some 0 0 none (by rw [hL]; simpa using hm1pos)]
    rw [this, hL0]
  · have hmatcol : ∀ a ∈ args, columnAt (materializeArgsBlock block args) a
        = Column.dense (List.replicate n (v a)) := by
      intro a ha
      have hent : getByPosition (materializeArgsBlock block args) a
          = { getByPosition block a with
              column := some ((columnAt block a).convertToFullColumnIfConst) } := by
        rw [materializeArgsBlock, getByPosition_rangeMap _ _ _ (hargsblk a ha),
          if_pos (contains_eq_true_of_mem ha)]
      simp only [columnAt, hent]
      show (columnAt block a).convertToFullColumnIfConst = _
      rw [hcols a ha]
      rfl
    have hm2 : (columnAt (materializeArgsBlock block args) (args.headD 0)).size = n := by
      rw [hmatcol _ (headD_mem hne)]
      simp [Column.size]
    refine ⟨(List.range (columnAt (materializeArgsBlock block args)
        (args.headD 0)).size).map
          (fun i => g (args.map (fun a =>
            (columnAt (materializeArgsBlock block args) a).valAt i))), rfl, ?_⟩
    rw [hm2]
    have hrows : ∀ i, i < n → args.map (fun a =>
        (columnAt (materializeArgsBlock block args) a).valAt i) = args.map v := by
      intro i hi
      apply List.map_congr_left
      intro a ha
      rw [hmatcol a ha]
      show (List.replicate n (v a)).getD i 0 = v a
      exact getD_replicate_of_lt n i (v a) 0 hi
    have : (List.range n).map (fun i => g (args.map (fun a =>
        (columnAt (materializeArgsBlock block args) a).valAt i)))
        = (List.range n).map (fun _ => g (args.map v)) := by
      apply List.map_congr_left
      intro i hi
      rw [hrows i (List.mem_range.mp hi)]
    show ((List.range n).map _).map some = _
    rw [this, rangeMap_const, List.map_replicate]

/-- Witness for C4: the folding-equivalence theorem applied at a concrete
two-argument constant call. -/
theorem C4_constant_folding_witness :
    ∃ res, execute K4 2 block4 [0, 1] 2 3 = .ok (setColumn block4 2 res, 1)
      ∧ res.isColumnConst = true
      ∧ res.materialize = List.replicate 3 (some ((fun l => l.foldl (· + ·) 0) ([0, 1].map v4)))
      ∧ ∃ d, pointwiseKernel (fun l => l.foldl (· + ·) 0)
            (materializeArgsBlock block4 [0, 1]) [0, 1] 2 3
          = .ok (setColumn (materializeArgsBlock block4 [0, 1]) 2 (Column.dense d))
        ∧ (Column.dense d).materialize
            = List.replicate 3 (some ((fun l => l.foldl (· + ·) 0) ([0, 1].map v4))) :=
  C4_constant_folding K4 0 block4 [0, 1] 2 3 (fun l => l.foldl (· + ·) 0) v4
    rfl (by decide) (by decide) (by decide) ⟨0, by decide, by decide⟩ rfl (by decide) (by decide)

theorem dictScan_const_skip (block : Block) (l : List Nat) (st : DictScan)
    (h : ∀ a ∈ l, (columnAt block a).isColumnConst = true) :
    l.foldl (dictScanStep block) st = st := by
  induction l generalizing st with
  | nil => rfl
  | cons a t ih =>
      have hc := h a (by simp)
      rcases hcc : columnAt block a with d | m | ⟨i2, nm⟩ | ⟨k, i2⟩ | ⟨u, idx⟩ <;>
        rw [hcc] at hc <;> simp [Column.isColumnConst] at hc
      rw [List.foldl_cons]
      rw [show dictScanStep block st a = st by rw [dictScanStep, hcc]]
      exact ih st (fun x hx => h x (by simp [hx]))

theorem dictScan_after_has (block : Block) (l : List Nat) (st : DictScan)
    (h : st.has_with_dictionary = true) :
    l.foldl (dictScanStep block) st
      = { st with convert_all_to_full := st.convert_all_to_full
            || l.any (fun a => !(columnAt block a).isColumnConst) } := by
  induction l generalizing st with
  | nil => simp
  | cons a t ih =>
      rw [List.foldl_cons]
      rcases hcc : columnAt block a with d | m | ⟨i2, nm⟩ | ⟨k, i2⟩ | ⟨u, idx⟩
      · rw [show dictScanStep block st a = { st with convert_all_to_full := true } by
          rw [dictScanStep, hcc]]
        rw [ih _ (by simpa using h)]
        simp [hcc, Column.isColumnConst]
      · rw [show dictScanStep block st a = { st with convert_all_to_full := true } by
          rw [dictScanStep, hcc]]
        rw [ih _ (by simpa using h)]
        simp [hcc, Column.isColumnConst]
      · rw [show dictScanStep block st a = { st with convert_all_to_full := true } by
          rw [dictScanStep, hcc]]
        rw [ih _ (by simpa using h)]
        simp [hcc, Column.isColumnConst]
      · rw [show dictScanStep block st a = st by rw [dictScanStep, hcc]]
        rw [ih _ h]
        simp [hcc, Column.isColumnConst]
      · rw [show dictScanStep block st a = { st with convert_all_to_full := true } by
          simp [dictScanStep, hcc, h]]
        rw [ih _ (by simpa using h)]
        simp [hcc, Column.isColumnConst]

theorem entry_set_column_self (e : ColumnWithTypeAndName) (c : Column)
    (h : e.column = some c) : { e with column := some c } = e := by
  cases e
  simp only at h
  simp [h]

/-- Successful sub-batch construction of the dictionary layer: with at least
one dictionary argument found by the scan, a dictionary result type, and
every argument either dictionary-typed-and-encoded, constant, or dense under
the full-conversion fallback, `removeColumnsWithDictionary` returns the
stripped result entry followed by the per-argument entries, plus the reused
index array exactly when the fallback is off. -/
theorem removeColumns_success (block : Block) (args : List Nat) (result : Nat)
    (rt : DataType) (w : Nat)
    (hres : (getByPosition block result).type = DataType.withDict rt w)
    (hhas : (args.foldl (dictScanStep block) {}).has_with_dictionary = true)
    (hok : ∀ a ∈ args,
      (∃ c, (getByPosition block a).column = some c)
      ∧ ((columnAt block a).isDictColumn = true →
          ∃ t wa, (getByPosition block a).type = DataType.withDict t wa)
      ∧ ((columnAt block a).isDictColumn = false →
          (columnAt block a).isColumnConst = true
          ∨ (args.foldl (dictScanStep block) {}).convert_all_to_full = true)) :
    removeColumnsWithDictionary block args result
      = .ok (some ({ getByPosition block result with type := rt }
          :: args.map (dictTempEntryFn block
              (args.foldl (dictScanStep block) {}).convert_all_to_full
              (args.foldl (dictScanStep block) {}).column_with_dict_size),
          if (args.foldl (dictScanStep block) {}).convert_all_to_full then none
          else (args.foldl (dictScanStep block) {}).indexes)) := by
  have hmap : args.mapM (dictTempEntryBody block (args.foldl (dictScanStep block) {}))
      = Except.ok (args.map (dictTempEntryFn block
          (args.foldl (dictScanStep block) {}).convert_all_to_full
          (args.foldl (dictScanStep block) {}).column_with_dict_size)) := by
    apply mapM_ok_of_forall
    intro a ha
    obtain ⟨⟨c, hcsome⟩, hdt, hnd⟩ := hok a ha
    have hcol : columnAt block a = c := by simp [columnAt, hcsome]
    rcases hcc : c with d | m | ⟨i2, nm⟩ | ⟨k, i2⟩ | ⟨u, idx⟩
    · have hconv := hnd (by rw [hcol, hcc]; rfl)
      rcases hconv with hco | hco
      · rw [hcol, hcc] at hco
        simp [Column.isColumnConst] at hco
      · simp only [dictTempEntryBody, hcsome, hcc, Option.getD_some, hco, if_true, pure, Except.pure]
        rw [dictTempEntryFn, if_neg (by rw [hcol, hcc]; simp [Column.isDictColumn])]
        rw [show (columnAt block a).cloneResized
            ((args.foldl (dictScanStep block) {}).column_with_dict_size) = c by
          rw [hcol, hcc]; rfl]
        rw [entry_set_column_self (getByPosition block a) c hcsome]
    · have hconv := hnd (by rw [hcol, hcc]; rfl)
      rcases hconv with hco | hco
      · rw [hcol, hcc] at hco
        simp [Column.isColumnConst] at hco
      · simp only [dictTempEntryBody, hcsome, hcc, Option.getD_some, hco, if_true, pure, Except.pure]
        rw [dictTempEntryFn, if_neg (by rw [hcol, hcc]; simp [Column.isDictColumn])]
        rw [show (columnAt block a).cloneResized
            ((args.foldl (dictScanStep block) {}).column_with_dict_size) = c by
          rw [hcol, hcc]; rfl]
        rw [entry_set_column_self (getByPosition block a) c hcsome]
    · have hconv := hnd (by rw [hcol, hcc]; rfl)
      rcases hconv with hco | hco
      · rw [hcol, hcc] at hco
        simp [Column.isColumnConst] at hco
      · simp only [dictTempEntryBody, hcsome, hcc, Option.getD_some, hco, if_true, pure, Except.pure]
        rw [dictTempEntryFn, if_neg (by rw [hcol, hcc]; simp [Column.isDictColumn])]
        rw [show (columnAt block a).cloneResized
            ((args.foldl (dictScanStep block) {}).column_with_dict_size) = c by
          rw [hcol, hcc]; rfl]
        rw [entry_set_column_self (getByPosition block a) c hcsome]
    · simp only [dictTempEntryBody, hcsome, hcc, Option.getD_some]
      rw [dictTempEntryFn, if_neg (by rw [hcol, hcc]; simp [Column.isDictColumn])]
      rw [hcol, hcc]
      simp [Column.cloneResized, pure, Except.pure]
    · obtain ⟨t, wa, hty⟩ := hdt (by rw [hcol, hcc]; rfl)
      simp only [dictTempEntryBody, hcsome, hcc, Option.getD_some, hty, pure, Except.pure]
      simp [dictTempEntryFn, hcol, hcc, hty, dictUnique, dictIndexes,
        DataType.dictionaryType, Column.isDictColumn]
  simp only [removeColumnsWithDictionary, hhas, hres, Bool.not_true, Bool.false_eq_true,
    Bool.false_or, if_false, bind, Except.bind, pure, Except.pure, hmap]

theorem getD_append_middle {α : Type} (pre : List α) (x : α) (suf : List α) (d : α) :
    (pre ++ x :: suf).getD pre.length d = x := by
  rw [List.getD_eq_getElem?_getD, List.getElem?_append]
  simp

theorem mapAdd1_headD (m : Nat) (h : 0 < m) :
    ((List.range m).map (fun i => i + 1)).headD 0 = 1 := by
  cases hr : List.range m with
  | nil => exact absurd hr (by simpa using Nat.pos_iff_ne_zero.mp h)
  | cons x t =>
      have hx : x = 0 := by
        have hs := List.range_succ_eq_map (m - 1)
        rw [show m = m - 1 + 1 from (Nat.succ_pred_eq_of_pos h).symm, hs] at hr
        exact (List.cons.inj hr).1.symm
      simp [hx]

theorem column_some_of_columnAt (block : Block) (a : Nat) (c : Column)
    (h : columnAt block a = c) (hne : ¬ c = Column.dense []) :
    (getByPosition block a).column = some c := by
  rw [columnAt] at h
  rcases hco : (getByPosition block a).column with _ | c2
  · rw [hco, Option.getD_none] at h
    have hd : (default : Column) = Column.dense [] := rfl
    rw [hd] at h
    exact absurd h.symm hne
  · rw [hco, Option.getD_some] at h
    exact congrArg some h

/-- C3: for a kernel opting into default dictionary handling with a pointwise
scalar kernel, when exactly one argument is dictionary-encoded (unique values
`uvals`, index array `idx`) and every other argument is constant, `execute`
stores a dictionary-encoded result whose unique set is the kernel evaluated
over the dictionary's unique values (cardinality-many rows, one `executeImpl`
invocation) and whose index array is the original argument's `idx` reused;
and that result materializes row by row to the kernel run with the dictionary
argument expanded to a dense length-N column. -/
theorem C3_dictionary_sharing (K : IFunction) (fuel : Nat) (block : Block)
    (args pre suf : List Nat) (ad result n : Nat)
    (g : List Val → Val) (v : Nat → Val) (uvals : List Val) (idx : List Nat)
    (rt : DataType) (wd wr : Nat)
    (hargs : args = pre ++ ad :: suf)
    (hflagD : K.useDefaultImplementationForColumnsWithDictionary = true)
    (hflagN : K.useDefaultImplementationForNulls = false)
    (hexempt : K.getArgumentsThatAreAlwaysConstant = [])
    (himpl : K.executeImpl = pointwiseKernel g)
    (hdcol : columnAt block ad = Column.dictCol (Column.dense uvals) idx)
    (hdtype : (getByPosition block ad).type = DataType.withDict DataType.base wd)
    (hconsts : ∀ a ∈ pre ++ suf, columnAt block a = Column.constCol n (Column.dense [v a]))
    (hrestype : (getByPosition block result).type = DataType.withDict rt wr)
    (hadnot : ad ∉ pre ++ suf)
    (hidxlt : ∀ j ∈ idx, j < uvals.length)
    (hadlt : ad < block.length)
    (hreslt : result < block.length)
    (hn : n = idx.length) :
    ∃ resvals : List Val,
      execute K (fuel + 1) block args result n
        = .ok (setColumn block result (Column.dictCol (Column.dense resvals) idx), 1)
      ∧ resvals = (List.range uvals.length).map
          (fun i => g (args.map (fun a => if a = ad then uvals.getD i 0 else v a)))
      ∧ ∀ direct, pointwiseKernel g
            (setColumn block ad (Column.convertToFullColumn (columnAt block ad)))
            args result n = .ok direct →
          (columnAt (setColumn block result (Column.dictCol (Column.dense resvals) idx))
              result).materialize
            = (columnAt direct result).materialize := by
  have halen : 0 < args.length := by rw [hargs]; simp
  have hne : args ≠ [] := by rw [hargs]; simp
  have hconst_pre : ∀ a ∈ pre, (columnAt block a).isColumnConst = true := by
    intro a ha
    rw [hconsts a (List.mem_append.mpr (Or.inl ha))]
    rfl
  have hconst_suf : ∀ a ∈ suf, (columnAt block a).isColumnConst = true := by
    intro a ha
    rw [hconsts a (List.mem_append.mpr (Or.inr ha))]
    rfl
  have hscan : args.foldl (dictScanStep block) {}
      = { has_with_dictionary := true, convert_all_to_full := false,
          column_with_dict_size := uvals.length, indexes := some idx } := by
    rw [hargs, List.foldl_append, dictScan_const_skip block pre {} hconst_pre, List.foldl_cons]
    rw [show dictScanStep block {} ad
        = ({ has_with_dictionary := true, convert_all_to_full := false,
             column_with_dict_size := uvals.length, indexes := some idx } : DictScan) by
      rw [dictScanStep, hdcol]
      rfl]
    rw [dictScan_after_has block suf _ rfl]
    have hs : suf.any (fun a => !(columnAt block a).isColumnConst) = false := by
      rw [List.any_eq_false]
      intro a ha
      simp [hconst_suf a ha]
    simp [hs]
  have hok : ∀ a ∈ args, (∃ c, (getByPosition block a).column = some c)
      ∧ ((columnAt block a).isDictColumn = true →
          ∃ t wa, (getByPosition block a).type = DataType.withDict t wa)
      ∧ ((columnAt block a).isDictColumn = false →
          (columnAt block a).isColumnConst = true
          ∨ (args.foldl (dictScanStep block) {}).convert_all_to_full = true) := by
    intro a ha
    rw [hargs] at ha
    rcases List.mem_append.mp ha with hpre | hmid
    · have hm : a ∈ pre ++ suf := List.mem_append.mpr (Or.inl hpre)
      refine ⟨⟨_, column_some_of_columnAt block a _ (hconsts a hm)
          (fun hh => Column.noConfusion hh)⟩, ?_, ?_⟩
      · intro hd
        rw [hconsts a hm] at hd
        simp [Column.isDictColumn] at hd
      · intro _
        left
        rw [hconsts a hm]
        rfl
    · rcases List.mem_cons.mp hmid with had | hsuf
      · subst had
        refine ⟨⟨_, column_some_of_columnAt block a _ hdcol
            (fun hh => Column.noConfusion hh)⟩, ?_, ?_⟩
        · intro _
          exact ⟨DataType.base, wd, hdtype⟩
        · intro hd
          rw [hdcol] at hd
          simp [Column.isDictColumn] at hd
      · have hm : a ∈ pre ++ suf := List.mem_append.mpr (Or.inr hsuf)
        refine ⟨⟨_, column_some_of_columnAt block a _ (hconsts a hm)
            (fun hh => Column.noConfusion hh)⟩, ?_, ?_⟩
        · intro hd
          rw [hconsts a hm] at hd
          simp [Column.isDictColumn] at hd
        · intro _
          left
          rw [hconsts a hm]
          rfl
  have hremove : removeColumnsWithDictionary block args result
      = .ok (some ({ getByPosition block result with type := rt }
          :: args.map (dictTempEntryFn block false uvals.length), some idx)) := by
    have h0 := removeColumns_success block args result rt wr hrestype (by rw [hscan]) hok
    rw [hscan] at h0
    simpa using h0
  have hfncol : ∀ a ∈ args, (dictTempEntryFn block false uvals.length a).column
      = some (if a = ad then Column.dense uvals
          else Column.constCol uvals.length (Column.dense [v a])) := by
    intro a ha
    rw [hargs] at ha
    rcases List.mem_append.mp ha with hpre | hmid
    · have hm : a ∈ pre ++ suf := List.mem_append.mpr (Or.inl hpre)
      have hane : ¬ a = ad := fun h => hadnot (h ▸ hm)
      simp [dictTempEntryFn, hconsts a hm, Column.isDictColumn, Column.cloneResized, hane]
    · rcases List.mem_cons.mp hmid with had | hsuf
      · subst had
        simp [dictTempEntryFn, hdcol, Column.isDictColumn, dictUnique]
      · have hm : a ∈ pre ++ suf := List.mem_append.mpr (Or.inr hsuf)
        have hane : ¬ a = ad := fun h => hadnot (h ▸ hm)
        simp [dictTempEntryFn, hconsts a hm, Column.isDictColumn, Column.cloneResized, hane]
  set TB := ({ getByPosition block result with type := rt }
      :: args.map (dictTempEntryFn block false uvals.length) : Block) with hTB
  have hTBlen : 0 < TB.length := by rw [hTB]; simp
  have hTBcol : ∀ k, k < args.length → columnAt TB (k + 1)
      = (if args.getD k 0 = ad then Column.dense uvals
         else Column.constCol uvals.length (Column.dense [v (args.getD k 0)])) := by
    intro k hk
    rw [columnAt, hTB, getByPosition_cons_succ]
    rw [getByPosition, getD_map_of_lt args (dictTempEntryFn block false uvals.length) k 0
      default hk]
    rw [hfncol (args.getD k 0) (getD_mem args k 0 hk)]
    rfl
  have htnh : ((List.range args.length).map (fun i => i + 1)).headD 0 = 1 :=
    mapAdd1_headD args.length halen
  have hm1 : (columnAt TB (((List.range args.length).map (fun i => i + 1)).headD 0)).size
      = uvals.length := by
    rw [htnh]
    have h0 := hTBcol 0 halen
    simp only [Nat.zero_add] at h0
    rw [h0]
    by_cases h : args.getD 0 0 = ad
    · rw [if_pos h]
      rfl
    · rw [if_neg h]
      rfl
  set KV := (List.range
      (columnAt TB (((List.range args.length).map (fun i => i + 1)).headD 0)).size).map
      (fun i => g (((List.range args.length).map (fun i => i + 1)).map
        (fun a => (columnAt TB a).valAt i))) with hKV
  have hlenKV : KV.length = uvals.length := by
    rw [hKV]
    simp only [List.length_map, List.length_range]
    exact hm1
  have hker : K.executeImpl TB ((List.range args.length).map (fun i => i + 1)) 0 n
      = .ok (setColumn TB 0 (Column.dense KV)) := by
    rw [himpl, hKV]
    rfl
  have hchk2 : (K.getArgumentsThatAreAlwaysConstant.any (fun argNum =>
      argNum < ((List.range args.length).map (fun i => i + 1)).length
        && !(columnAt TB (((List.range args.length).map (fun i => i + 1)).getD argNum 0)).isColumnConst)) = false := by
    rw [hexempt]
    rfl
  have hmem1 : (pre.length + 1) ∈ (List.range args.length).map (fun i => i + 1) := by
    refine List.mem_map.mpr ⟨pre.length, List.mem_range.mpr ?_, rfl⟩
    rw [hargs]
    simp
  have hcol_ad1 : columnAt TB (pre.length + 1) = Column.dense uvals := by
    have h0 := hTBcol pre.length (by rw [hargs]; simp)
    rw [h0, if_pos (by rw [hargs]; exact getD_append_middle pre ad suf 0)]
  have hnotall : allArgumentsAreConstants TB
      ((List.range args.length).map (fun i => i + 1)) = false := by
    by_contra hc
    rw [Bool.not_eq_false] at hc
    have h2 := (List.all_eq_true.mp hc) _ hmem1
    rw [hcol_ad1] at h2
    simp [Column.isColumnConst] at h2
  have hna2 : (((List.range args.length).map (fun i => i + 1)).isEmpty
      || !K.useDefaultImplementationForConstants
      || !allArgumentsAreConstants TB ((List.range args.length).map (fun i => i + 1)))
      = true := by
    simp [hnotall]
  have hA2 := constArgsAux_not_applicable (executeWithoutColumnsWithDictionary K fuel) K
    TB ((List.range args.length).map (fun i => i + 1)) 0 n hchk2 hna2
  have hB2 := nullsAux_not_applicable (executeWithoutColumnsWithDictionary K fuel) K
    TB ((List.range args.length).map (fun i => i + 1)) 0 n (Or.inl (by simp [hflagN]))
  have hinner := executeWithout_of_kernel K fuel TB
    ((List.range args.length).map (fun i => i + 1)) 0 n
    (setColumn TB 0 (Column.dense KV)) 0 0 hA2 hB2 hker
  have hresTB : columnAt (setColumn TB 0 (Column.dense KV)) 0 = Column.dense KV :=
    columnAt_setColumn_self TB 0 _ hTBlen
  have hmapidx : idx.map (fun i => (List.range KV.length).getD i 0) = idx := by
    have h1 : ∀ j ∈ idx, (List.range KV.length).getD j 0 = j := by
      intro j hj
      rw [hlenKV]
      exact getD_range_of_lt _ _ _ (hidxlt j hj)
    rw [List.map_congr_left h1]
    simp
  have hexec : execute K (fuel + 1) block args result n
      = .ok (setColumn block result (Column.dictCol (Column.dense KV) idx), 1) := by
    simp only [execute, hflagD, if_true, hremove, ← hTB, bind, Except.bind, hinner, hresTB,
      hrestype, DataType.createColumn, dictInsertRangeFromFullColumn, dictIndex,
      Column.convertToFullColumnIfConst, Column.size, pure, Except.pure, hmapidx]
  have hchar : KV = (List.range uvals.length).map
      (fun i => g (args.map (fun a => if a = ad then uvals.getD i 0 else v a))) := by
    rw [hKV, hm1]
    apply List.map_congr_left
    intro i hi
    congr 1
    rw [List.map_map]
    have hrow : ∀ k ∈ List.range args.length,
        ((fun a => (columnAt TB a).valAt i) ∘ fun i2 => i2 + 1) k
          = (if args.getD k 0 = ad then uvals.getD i 0 else v (args.getD k 0)) := by
      intro k hk
      have hc := hTBcol k (List.mem_range.mp hk)
      simp only [Function.comp_apply]
      rw [hc]
      by_cases h : args.getD k 0 = ad
      · rw [if_pos h, if_pos h]
        rfl
      · rw [if_neg h, if_neg h]
        rfl
    rw [List.map_congr_left hrow]
    exact rangeMap_getD args (fun a => if a = ad then uvals.getD i 0 else v a) 0
  refine ⟨KV, hexec, hchar, ?_⟩
  intro direct hdirect
  set BE := setColumn block ad (Column.convertToFullColumn (columnAt block ad)) with hBE
  have hd0 : pointwiseKernel g BE args result n
      = .ok (setColumn BE result
          (Column.dense ((List.range (columnAt BE (args.headD 0)).size).map
            (fun i => g (args.map (fun a => (columnAt BE a).valAt i)))))) := rfl
  rw [hd0] at hdirect
  have hdir := Except.ok.inj hdirect
  subst hdir
  have hBEad : columnAt BE ad = Column.dense (idx.map (fun j => uvals.getD j 0)) := by
    rw [hBE, hdcol, columnAt_setColumn_self block ad _ hadlt]
    rfl
  have hBEc : ∀ a ∈ pre ++ suf, columnAt BE a = Column.constCol n (Column.dense [v a]) := by
    intro a ha
    have hane : a ≠ ad := fun h => hadnot (h ▸ ha)
    rw [hBE, columnAt_setColumn_ne block ad a _ hane]
    exact hconsts a ha
  have hsz : (columnAt BE (args.headD 0)).size = idx.length := by
    have hhm : args.headD 0 ∈ pre ++ ad :: suf := by
      rw [← hargs]
      exact headD_mem hne
    rcases List.mem_append.mp hhm with h1 | h2
    · rw [hBEc _ (List.mem_append.mpr (Or.inl h1))]
      show n = idx.length
      exact hn
    · rcases List.mem_cons.mp h2 with he | h3
      · rw [he, hBEad]
        simp [Column.size]
      · rw [hBEc _ (List.mem_append.mpr (Or.inr h3))]
        show n = idx.length
        exact hn
  rw [columnAt_setColumn_self block result _ hreslt,
    columnAt_setColumn_self BE result _ (by rw [hBE, length_setColumn]; exact hreslt)]
  simp only [Column.materialize]
  have hA : ∀ j ∈ idx, (KV.map some).getD j none = some (KV.getD j 0) := by
    intro j hj
    exact getD_map_of_lt KV some j 0 none (by rw [hlenKV]; exact hidxlt j hj)
  rw [List.map_congr_left hA, hsz, List.map_map,
    ← rangeMap_getD idx (fun j => some (KV.getD j 0)) 0]
  apply List.map_congr_left
  intro i hi
  have hilt : i < idx.length := List.mem_range.mp hi
  have hjm : idx.getD i 0 ∈ idx := getD_mem idx i 0 hilt
  have hjlt : idx.getD i 0 < uvals.length := hidxlt _ hjm
  simp only [Function.comp_apply]
  congr 1
  rw [hchar]
  rw [getD_map_of_lt (List.range uvals.length) _ (idx.getD i 0) 0 0 (by simpa using hjlt),
    getD_range_of_lt _ _ _ hjlt]
  show g (args.map (fun a => if a = ad then uvals.getD (idx.getD i 0) 0 else v a))
      = g (args.map (fun a => (columnAt BE a).valAt i))
  congr 1
  apply List.map_congr_left
  intro a ha
  rw [hargs] at ha
  rcases List.mem_append.mp ha with h1 | h2
  · have hm : a ∈ pre ++ suf := List.mem_append.mpr (Or.inl h1)
    have hane : ¬ a = ad := fun h => hadnot (h ▸ hm)
    rw [if_neg hane, hBEc a hm]
    rfl
  · rcases List.mem_cons.mp h2 with he | h3
    · subst he
      rw [if_pos rfl, hBEad]
      show uvals.getD (idx.getD i 0) 0 = (idx.map (fun j => uvals.getD j 0)).getD i 0
      rw [getD_map_of_lt idx _ i 0 0 hilt]
    · have hm : a ∈ pre ++ suf := List.mem_append.mpr (Or.inr h3)
      have hane : ¬ a = ad := fun h => hadnot (h ▸ hm)
      rw [if_neg hane, hBEc a hm]
      rfl

/-- Witness for C3 at a concrete batch. -/
theorem C3_dictionary_sharing_witness :
    ∃ resvals : List Val,
      execute K3 1 block3 [0, 1] 2 3
        = .ok (setColumn block3 2 (Column.dictCol (Column.dense resvals) [0, 1, 0]), 1)
      ∧ resvals = (List.range 2).map
          (fun i => g3 (([0, 1] : List Nat).map
            (fun a => if a = 1 then ([1, 2] : List Val).getD i 0 else 10)))
      ∧ ∀ direct, pointwiseKernel g3
            (setColumn block3 1 (Column.convertToFullColumn (columnAt block3 1)))
            [0, 1] 2 3 = .ok direct →
          (columnAt (setColumn block3 2
              (Column.dictCol (Column.dense resvals) [0, 1, 0])) 2).materialize
            = (columnAt direct 2).materialize :=
  C3_dictionary_sharing K3 0 block3 [0, 1] [0] [] 1 2 3 g3 (fun _ => 10) [1, 2] [0, 1, 0]
    DataType.base 8 8 rfl rfl rfl rfl rfl rfl rfl (by decide) rfl (by decide) (by decide)
    (by decide) (by decide) rfl

/-- C6 (amended): for a kernel opting into default dictionary handling with a
pointwise scalar kernel, two dictionary-encoded arguments trigger the
full-conversion fallback: both arguments are expanded to dense length-N form,
the kernel runs once over those N rows, and the column stored in the result
slot is dictionary-encoded (a fresh dictionary holding the full result with an
enumerating index array) — not a plain column. -/
theorem C6_fallback_full_conversion (K : IFunction) (fuel : Nat) (block : Block)
    (args : List Nat) (ad1 ad2 result n : Nat)
    (g : List Val → Val) (u1 u2 : List Val) (idx1 idx2 : List Nat)
    (rt t1 t2 : DataType) (w1 w2 wr : Nat)
    (hargs : args = [ad1, ad2])
    (hflagD : K.useDefaultImplementationForColumnsWithDictionary = true)
    (hflagN : K.useDefaultImplementationForNulls = false)
    (hexempt : K.getArgumentsThatAreAlwaysConstant = [])
    (himpl : K.executeImpl = pointwiseKernel g)
    (hd1col : columnAt block ad1 = Column.dictCol (Column.dense u1) idx1)
    (hd2col : columnAt block ad2 = Column.dictCol (Column.dense u2) idx2)
    (hd1type : (getByPosition block ad1).type = DataType.withDict t1 w1)
    (hd2type : (getByPosition block ad2).type = DataType.withDict t2 w2)
    (hrestype : (getByPosition block result).type = DataType.withDict rt wr)
    (hlen2 : idx2.length = idx1.length) :
    ∃ resvals : List Val,
      execute K (fuel + 1) block args result n
        = .ok (setColumn block result
            (Column.dictCol (Column.dense resvals) (List.range idx1.length)), 1)
      ∧ resvals = (List.range idx1.length).map
          (fun i => g [u1.getD (idx1.getD i 0) 0, u2.getD (idx2.getD i 0) 0])
      ∧ (Column.dictCol (Column.dense resvals) (List.range idx1.length)).isDictColumn = true
      ∧ (Column.dictCol (Column.dense resvals) (List.range idx1.length)).materialize
          = resvals.map some := by
  have halen : 0 < args.length := by rw [hargs]; simp
  have hscan : args.foldl (dictScanStep block) {}
      = { has_with_dictionary := true, convert_all_to_full := true,
          column_with_dict_size := u1.length, indexes := some idx1 } := by
    rw [hargs]
    show dictScanStep block (dictScanStep block {} ad1) ad2 = _
    rw [show dictScanStep block {} ad1
        = ({ has_with_dictionary := true, convert_all_to_full := false,
             column_with_dict_size := u1.length, indexes := some idx1 } : DictScan) by
      rw [dictScanStep, hd1col]
      rfl]
    rw [dictScanStep, hd2col]
    rfl
  have hok : ∀ a ∈ args, (∃ c, (getByPosition block a).column = some c)
      ∧ ((columnAt block a).isDictColumn = true →
          ∃ t wa, (getByPosition block a).type = DataType.withDict t wa)
      ∧ ((columnAt block a).isDictColumn = false →
          (columnAt block a).isColumnConst = true
          ∨ (args.foldl (dictScanStep block) {}).convert_all_to_full = true) := by
    intro a ha
    rw [hargs] at ha
    rcases List.mem_cons.mp ha with h1 | h2
    · subst h1
      refine ⟨⟨_, column_some_of_columnAt block a _ hd1col
          (fun hh => Column.noConfusion hh)⟩, ?_, ?_⟩
      · intro _
        exact ⟨t1, w1, hd1type⟩
      · intro hd
        rw [hd1col] at hd
        simp [Column.isDictColumn] at hd
    · rcases List.mem_cons.mp h2 with h1 | h2
      · subst h1
        refine ⟨⟨_, column_some_of_columnAt block a _ hd2col
            (fun hh => Column.noConfusion hh)⟩, ?_, ?_⟩
        · intro _
          exact ⟨t2, w2, hd2type⟩
        · intro hd
          rw [hd2col] at hd
          simp [Column.isDictColumn] at hd
      · simp at h2
  have hremove : removeColumnsWithDictionary block args result
      = .ok (some ({ getByPosition block result with type := rt }
          :: args.map (dictTempEntryFn block true u1.length), none)) := by
    have h0 := removeColumns_success block args result rt wr hrestype (by rw [hscan]) hok
    rw [hscan] at h0
    simpa using h0
  have hfn1 : (dictTempEntryFn block true u1.length ad1).column
      = some (Column.dense (idx1.map (fun j => u1.getD j 0))) := by
    simp [dictTempEntryFn, hd1col, Column.isDictColumn, dictUnique, dictIndexes,
      Column.selectRows]
  have hfn2 : (dictTempEntryFn block true u1.length ad2).column
      = some (Column.dense (idx2.map (fun j => u2.getD j 0))) := by
    simp [dictTempEntryFn, hd2col, Column.isDictColumn, dictUnique, dictIndexes,
      Column.selectRows]
  set TB := ({ getByPosition block result with type := rt }
      :: args.map (dictTempEntryFn block true u1.length) : Block) with hTB
  have hTBlen : 0 < TB.length := by rw [hTB]; simp
  have hTBcol : ∀ k, k < args.length → columnAt TB (k + 1)
      = (if k = 0 then Column.dense (idx1.map (fun j => u1.getD j 0))
         else Column.dense (idx2.map (fun j => u2.getD j 0))) := by
    intro k hk
    rw [columnAt, hTB, getByPosition_cons_succ]
    rw [hargs]
    rcases k with _ | k2
    · rw [if_pos rfl]
      show (dictTempEntryFn block true u1.length ad1).column.getD default = _
      rw [hfn1]
      rfl
    · rcases k2 with _ | k3
      · rw [if_neg (by simp)]
        show (dictTempEntryFn block true u1.length ad2).column.getD default = _
        rw [hfn2]
        rfl
      · rw [hargs] at hk
        simp at hk
        omega
  have htnh : ((List.range args.length).map (fun i => i + 1)).headD 0 = 1 :=
    mapAdd1_headD args.length halen
  have hm1 : (columnAt TB (((List.range args.length).map (fun i => i + 1)).headD 0)).size
      = idx1.length := by
    rw [htnh]
    have h0 := hTBcol 0 halen
    simp only [Nat.zero_add] at h0
    rw [h0]
    simp [Column.size]
  set KV := (List.range
      (columnAt TB (((List.range args.length).map (fun i => i + 1)).headD 0)).size).map
      (fun i => g (((List.range args.length).map (fun i => i + 1)).map
        (fun a => (columnAt TB a).valAt i))) with hKV
  have hlenKV : KV.length = idx1.length := by
    rw [hKV]
    simp only [List.length_map, List.length_range]
    exact hm1
  have hker : K.executeImpl TB ((List.range args.length).map (fun i => i + 1)) 0 n
      = .ok (setColumn TB 0 (Column.dense KV)) := by
    rw [himpl, hKV]
    rfl
  have hchk2 : (K.getArgumentsThatAreAlwaysConstant.any (fun argNum =>
      argNum < ((List.range args.length).map (fun i => i + 1)).length
        && !(columnAt TB (((List.range args.length).map (fun i => i + 1)).getD argNum 0)).isColumnConst)) = false := by
    rw [hexempt]
    rfl
  have hmem1 : 1 ∈ (List.range args.length).map (fun i => i + 1) := by
    refine List.mem_map.mpr ⟨0, List.mem_range.mpr halen, rfl⟩
  have hcol1 : columnAt TB 1 = Column.dense (idx1.map (fun j => u1.getD j 0)) := by
    have h0 := hTBcol 0 halen
    simp only [Nat.zero_add] at h0
    rw [h0]
    simp
  have hnotall : allArgumentsAreConstants TB
      ((List.range args.length).map (fun i => i + 1)) = false := by
    by_contra hc
    rw [Bool.not_eq_false] at hc
    have h2 := (List.all_eq_true.mp hc) _ hmem1
    rw [hcol1] at h2
    simp [Column.isColumnConst] at h2
  have hna2 : (((List.range args.length).map (fun i => i + 1)).isEmpty
      || !K.useDefaultImplementationForConstants
      || !allArgumentsAreConstants TB ((List.range args.length).map (fun i => i + 1)))
      = true := by
    simp [hnotall]
  have hA2 := constArgsAux_not_applicable (executeWithoutColumnsWithDictionary K fuel) K
    TB ((List.range args.length).map (fun i => i + 1)) 0 n hchk2 hna2
  have hB2 := nullsAux_not_applicable (executeWithoutColumnsWithDictionary K fuel) K
    TB ((List.range args.length).map (fun i => i + 1)) 0 n (Or.inl (by simp [hflagN]))
  have hinner := executeWithout_of_kernel K fuel TB
    ((List.range args.length).map (fun i => i + 1)) 0 n
    (setColumn TB 0 (Column.dense KV)) 0 0 hA2 hB2 hker
  have hresTB : columnAt (setColumn TB 0 (Column.dense KV)) 0 = Column.dense KV :=
    columnAt_setColumn_self TB 0 _ hTBlen
  have hexec : execute K (fuel + 1) block args result n
      = .ok (setColumn block result
          (Column.dictCol (Column.dense KV) (List.range idx1.length)), 1) := by
    simp only [execute, hflagD, if_true, hremove, ← hTB, bind, Except.bind, hinner, hresTB,
      hrestype, DataType.createColumn, dictInsertRangeFromFullColumn,
      Column.convertToFullColumnIfConst, Column.size, pure, Except.pure, hlenKV]
  have hchar : KV = (List.range idx1.length).map
      (fun i => g [u1.getD (idx1.getD i 0) 0, u2.getD (idx2.getD i 0) 0]) := by
    rw [hKV, hm1]
    apply List.map_congr_left
    intro i hi
    have hilt : i < idx1.length := List.mem_range.mp hi
    congr 1
    rw [List.map_map]
    have hrow : ∀ k ∈ List.range args.length,
        ((fun a => (columnAt TB a).valAt i) ∘ fun i2 => i2 + 1) k
          = (if k = 0 then u1.getD (idx1.getD i 0) 0 else u2.getD (idx2.getD i 0) 0) := by
      intro k hk
      have hc := hTBcol k (List.mem_range.mp hk)
      simp only [Function.comp_apply]
      rw [hc]
      rcases k with _ | k2
      · rw [if_pos rfl, if_pos rfl]
        show (idx1.map (fun j => u1.getD j 0)).getD i 0 = _
        rw [getD_map_of_lt idx1 _ i 0 0 hilt]
      · rw [if_neg (by simp), if_neg (by simp)]
        show (idx2.map (fun j => u2.getD j 0)).getD i 0 = _
        rw [getD_map_of_lt idx2 _ i 0 0 (by rw [hlen2]; exact hilt)]
    rw [List.map_congr_left hrow, hargs]
    rfl
  refine ⟨KV, hexec, hchar, rfl, ?_⟩
  simp only [Column.materialize]
  have hA : ∀ j ∈ List.range idx1.length, (KV.map some).getD j none = some (KV.getD j 0) := by
    intro j hj
    exact getD_map_of_lt KV some j 0 none (by rw [hlenKV]; exact List.mem_range.mp hj)
  rw [List.map_congr_left hA, ← hlenKV]
  exact rangeMap_getD KV some 0

/-- Counterexample for C6 as stated: in the full-conversion fallback the
column stored in the result slot is dictionary-encoded, not a plain
(non-dictionary) column. -/
theorem C6_counterexample :
    execute K6 1 block6 [0, 1] 2 3
      = .ok (setColumn block6 2 (Column.dictCol (Column.dense [8, 9, 6]) [0, 1, 2]), 1)
    ∧ (Column.dictCol (Column.dense ([8, 9, 6] : List Val)) [0, 1, 2]).isDictColumn = true :=
  ⟨rfl, rfl⟩

/-- Witness for the amended C6 at a concrete batch. -/
theorem C6_fallback_full_conversion_witness :
    ∃ resvals : List Val,
      execute K6 1 block6 [0, 1] 2 3
        = .ok (setColumn block6 2
            (Column.dictCol (Column.dense resvals) (List.range 3)), 1)
      ∧ resvals = (List.range 3).map
          (fun i => g3 [([1, 2] : List Val).getD (([0, 1, 0] : List Nat).getD i 0) 0,
            ([5, 7] : List Val).getD (([1, 1, 0] : List Nat).getD i 0) 0])
      ∧ (Column.dictCol (Column.dense resvals) (List.range 3)).isDictColumn = true
      ∧ (Column.dictCol (Column.dense resvals) (List.range 3)).materialize
          = resvals.map some :=
  C6_fallback_full_conversion K6 0 block6 [0, 1] 0 1 2 3 g3 [1, 2] [5, 7] [0, 1, 0] [1, 1, 0]
    DataType.base DataType.base DataType.base 8 8 8 rfl rfl rfl rfl rfl rfl rfl rfl rfl rfl rfl

theorem any_map_type (l : List ColumnWithTypeAndName) (p : DataType → Bool) :
    (l.map (fun e => e.type)).any p = l.any (fun e => p e.type) := by
  induction l with
  | nil => rfl
  | cons a t ih => simp [ih]

theorem rtw_rtSpec (K : IFunction) (argsE : List ColumnWithTypeAndName) (rt : DataType)
    (hret : K.getReturnTypeImpl = fun _ => .ok DataType.base)
    (h : getReturnTypeWithoutDictionary K argsE = .ok rt) :
    rt = rtSpecN K.useDefaultImplementationForNulls (argsE.map (fun e => e.type)) := by
  rw [getReturnTypeWithoutDictionary] at h
  rcases hchk : checkNumberOfArguments K argsE.length with e | u
  · rw [hchk] at h
    simp [bind, Except.bind] at h
  · rw [hchk] at h
    simp only [bind, Except.bind] at h
    have hmape : (argsE.map (fun e => e.type)).isEmpty = argsE.isEmpty := by
      rcases argsE with _ | ⟨a, t⟩ <;> rfl
    have hmapo : (argsE.map (fun e => e.type)).any DataType.onlyNull
        = argsE.any (fun e => e.type.onlyNull) := any_map_type argsE DataType.onlyNull
    have hmapn : (argsE.map (fun e => e.type)).any DataType.isNullable
        = argsE.any (fun e => e.type.isNullable) := any_map_type argsE DataType.isNullable
    by_cases hne : (!argsE.isEmpty && K.useDefaultImplementationForNulls) = true
    · rw [if_pos hne] at h
      by_cases hnc : (argsE.any (fun e => e.type.onlyNull)) = true
      · simp only [getNullPresenseArgs, hnc, if_true, pure, Except.pure] at h
        rw [rtSpecN, if_pos (by
          rw [hmape, hmapo]
          simp only [Bool.and_assoc] at hne ⊢
          simp [hne, hnc])]
        exact (Except.ok.inj h).symm
      · simp only [getNullPresenseArgs, hnc, Bool.false_eq_true, if_false] at h
        by_cases hnn : (argsE.any (fun e => e.type.isNullable)) = true
        · simp only [hnn, if_true, hret, bind, Except.bind, pure, Except.pure] at h
          rw [rtSpecN, if_neg (by
              rw [hmape, hmapo]
              simp [hnc]),
            if_pos (by
              rw [hmape, hmapn]
              simp only [Bool.and_assoc] at hne ⊢
              simp [hne, hnn])]
          exact (Except.ok.inj h).symm
        · simp only [hnn, Bool.false_eq_true, if_false, hret, pure, Except.pure] at h
          rw [rtSpecN, if_neg (by rw [hmape, hmapo]; simp [hnc]),
            if_neg (by rw [hmape, hmapn]; simp [hnn])]
          exact (Except.ok.inj h).symm
    · rw [if_neg hne] at h
      simp only [hret, pure, Except.pure] at h
      rw [rtSpecN, if_neg (by
          rw [hmape]
          intro hcc
          exact hne (by
            simp only [Bool.and_assoc] at hcc
            simp only [Bool.and_eq_true] at hcc ⊢
            exact ⟨hcc.1, hcc.2.1⟩)),
        if_neg (by
          rw [hmape]
          intro hcc
          exact hne (by
            simp only [Bool.and_assoc] at hcc
            simp only [Bool.and_eq_true] at hcc ⊢
            exact ⟨hcc.1, hcc.2.1⟩))]
      exact (Except.ok.inj h).symm

theorem matches_create (c : Column) (n : Nat) (t : DataType) :
    columnMatchesType (ColumnConst.create c n) t = columnMatchesType c t := by
  induction c generalizing n t with
  | dense d => cases t <;> rfl
  | nothingCol m => cases t <;> rfl
  | nullableCol i nm _ => cases t <;> rfl
  | constCol k i ih =>
      have h0 : ColumnConst.create (Column.constCol k i) n = ColumnConst.create i n := rfl
      rw [h0, ih]
      cases t <;> rfl
  | dictCol u idx _ => cases t <;> rfl

theorem isNullAt0_matches_base (c : Column) (h : columnMatchesType c DataType.base = true) :
    c.isNullAt 0 = false := by
  induction c with
  | dense d => rfl
  | nothingCol m => exact Bool.noConfusion (show false = true from h)
  | nullableCol i nm _ => exact Bool.noConfusion (show false = true from h)
  | constCol k i ih => exact ih (show columnMatchesType i DataType.base = true from h)
  | dictCol u idx _ => exact Bool.noConfusion (show false = true from h)

theorem onlyNull_matches_base (c : Column) (h : columnMatchesType c DataType.base = true) :
    c.onlyNull = false := by
  cases c with
  | dense d => rfl
  | nothingCol m => exact Bool.noConfusion (show false = true from h)
  | nullableCol i nm => exact Bool.noConfusion (show false = true from h)
  | constCol k i =>
      exact isNullAt0_matches_base i (show columnMatchesType i DataType.base = true from h)
  | dictCol u idx => exact Bool.noConfusion (show false = true from h)

theorem replicateFirst_matches_base (c : Column) (k : Nat)
    (h : columnMatchesType c DataType.base = true) :
    columnMatchesType (c.replicateFirst k) DataType.base = true := by
  cases c with
  | dense d => rfl
  | nothingCol m => exact Bool.noConfusion (show false = true from h)
  | nullableCol i nm => exact Bool.noConfusion (show false = true from h)
  | constCol j i => exact h
  | dictCol u idx => exact Bool.noConfusion (show false = true from h)

theorem makeNullable_matches_base (src : Column)
    (h : columnMatchesType src DataType.base = true) :
    columnMatchesType (makeNullableColumn src) (DataType.nullable DataType.base) = true := by
  cases src with
  | dense d => exact h
  | nothingCol m => exact Bool.noConfusion (show false = true from h)
  | nullableCol i nm => exact Bool.noConfusion (show false = true from h)
  | dictCol u idx => exact Bool.noConfusion (show false = true from h)
  | constCol k i =>
      cases i with
      | dense d => exact h
      | nothingCol m => exact Bool.noConfusion (show false = true from h)
      | nullableCol i2 nm2 => exact Bool.noConfusion (show false = true from h)
      | constCol k2 i2 => exact h
      | dictCol u2 idx2 => exact Bool.noConfusion (show false = true from h)

theorem constnull_matches_nb (n : Nat) :
    columnMatchesType (createColumnConstNull (DataType.nullable DataType.base) n)
      (DataType.nullable DataType.base) = true := rfl

theorem constnull_matches_nn (n : Nat) :
    columnMatchesType (createColumnConstNull (DataType.nullable DataType.nothing) n)
      (DataType.nullable DataType.nothing) = true := rfl

theorem wrapLoop_inl (block : Block) (result n : Nat) (l : List Nat)
    (acc : Option (List Bool)) (c : Column)
    (h : wrapLoop block result n l acc = .inl c) :
    c = createColumnConstNull (getByPosition block result).type n := by
  induction l generalizing acc with
  | nil => exact absurd h (by simp [wrapLoop])
  | cons a t ih =>
      simp only [wrapLoop] at h
      by_cases h1 : (!(getByPosition block a).type.isNullable) = true
      · rw [if_pos h1] at h
        exact ih _ h
      · rw [if_neg h1] at h
        by_cases h2 : ((getByPosition block a).column.getD default).onlyNull = true
        · rw [if_pos h2] at h
          exact (Sum.inl.inj h).symm
        · rw [if_neg h2] at h
          by_cases h3 : ((getByPosition block a).column.getD default).isColumnConst = true
          · rw [if_pos h3] at h
            exact ih _ h
          · rw [if_neg h3] at h
            rcases hcc : (getByPosition block a).column.getD default
                with d | m | ⟨i2, nm⟩ | ⟨k, i2⟩ | ⟨u, idx⟩ <;> rw [hcc] at h
            · exact ih _ h
            · exact ih _ h
            · rcases acc with _ | res
              · exact ih _ h
              · exact ih _ h
            · exact ih _ h
            · exact ih _ h

theorem wrapInNullable_matches (src : Column) (block : Block) (args : List Nat)
    (result n : Nat)
    (hsrc : columnMatchesType src DataType.base = true)
    (hslot : (getByPosition block result).type = DataType.nullable DataType.base) :
    columnMatchesType (wrapInNullable src block args result n)
      (DataType.nullable DataType.base) = true := by
  cases src with
  | nothingCol m => exact Bool.noConfusion (show false = true from hsrc)
  | nullableCol i nm => exact Bool.noConfusion (show false = true from hsrc)
  | dictCol u idx => exact Bool.noConfusion (show false = true from hsrc)
  | dense d =>
      simp only [wrapInNullable, Column.onlyNull, Bool.false_eq_true, if_false]
      rcases hw : wrapLoop block result n args none with c | acc
      · show columnMatchesType c (DataType.nullable DataType.base) = true
        rw [wrapLoop_inl block result n args none c hw, hslot]
        exact constnull_matches_nb n
      · rcases acc with _ | nm
        · show columnMatchesType (makeNullableColumn (Column.dense d))
            (DataType.nullable DataType.base) = true
          exact makeNullable_matches_base _ hsrc
        · show columnMatchesType (Column.nullableCol (Column.dense d) nm)
            (DataType.nullable DataType.base) = true
          exact hsrc
  | constCol k i =>
      simp only [wrapInNullable]
      have ho : (Column.constCol k i).onlyNull = false := onlyNull_matches_base _ hsrc
      rw [ho]
      simp only [Bool.false_eq_true, if_false]
      rcases hw : wrapLoop block result n args none with c | acc
      · show columnMatchesType c (DataType.nullable DataType.base) = true
        rw [wrapLoop_inl block result n args none c hw, hslot]
        exact constnull_matches_nb n
      · rcases acc with _ | nm
        · show columnMatchesType (makeNullableColumn (Column.constCol k i))
            (DataType.nullable DataType.base) = true
          exact makeNullable_matches_base _ hsrc
        · show columnMatchesType
            (Column.nullableCol ((Column.constCol k i).convertToFullColumnIfConst) nm)
            (DataType.nullable DataType.base) = true
          show columnMatchesType (i.replicateFirst k) DataType.base = true
          exact replicateFirst_matches_base i k hsrc

theorem constArgsAux_inv
    (recurse : Block → List Nat → Nat → Nat → Except Err (Block × Nat))
    (K : IFunction) (block : Block) (args : List Nat) (result n : Nat)
    (bb : Block) (c1 : Nat)
    (h : defaultImplementationForConstantArgumentsAux recurse K block args result n
      = .ok (some bb, c1)) :
    ∃ tb, recurse ((List.range args.length).map
          (constArgsTempEntry block args K.getArgumentsThatAreAlwaysConstant)
          ++ [getByPosition block result])
        (List.range args.length) args.length
        (blockRows ((List.range args.length).map
          (constArgsTempEntry block args K.getArgumentsThatAreAlwaysConstant)
          ++ [getByPosition block result])) = .ok (tb, c1)
      ∧ bb = setColumn block result (ColumnConst.create (columnAt tb args.length) n) := by
  simp only [defaultImplementationForConstantArgumentsAux] at h
  by_cases hc1 : (K.getArgumentsThatAreAlwaysConstant.any (fun argNum =>
      argNum < args.length && !(columnAt block (args.getD argNum 0)).isColumnConst)) = true
  · simp only [hc1, eq_self_iff_true, if_true, bind, Except.bind, throw, throwThe,
      MonadExceptOf.throw] at h
    exact Except.noConfusion h
  · rw [Bool.not_eq_true] at hc1
    simp only [hc1, Bool.false_eq_true, if_false] at h
    by_cases hc2 : (args.isEmpty || !K.useDefaultImplementationForConstants
        || !allArgumentsAreConstants block args) = true
    · simp only [hc2, eq_self_iff_true, if_true, bind, Except.bind, pure, Except.pure] at h
      have h1 := (Prod.mk.injEq _ _ _ _ ▸ (Except.ok.inj h)).1
      exact Option.noConfusion h1
    · rw [Bool.not_eq_true] at hc2
      simp only [hc2, Bool.false_eq_true, if_false] at h
      by_cases hc3 : (!(List.range args.length).any
          (fun i => !K.getArgumentsThatAreAlwaysConstant.contains i)) = true
      · simp only [hc3, eq_self_iff_true, if_true, bind, Except.bind, throw, throwThe,
          MonadExceptOf.throw] at h
        exact Except.noConfusion h
      · rw [Bool.not_eq_true] at hc3
        simp only [hc3, Bool.false_eq_true, if_false] at h
        rcases hr : recurse ((List.range args.length).map
            (constArgsTempEntry block args K.getArgumentsThatAreAlwaysConstant)
            ++ [getByPosition block result])
          (List.range args.length) args.length
          (blockRows ((List.range args.length).map
            (constArgsTempEntry block args K.getArgumentsThatAreAlwaysConstant)
            ++ [getByPosition block result])) with e | tbc
        · rw [hr] at h
          simp only [bind, Except.bind] at h
          exact Except.noConfusion h
        · rw [hr] at h
          simp only [bind, Except.bind, pure, Except.pure] at h
          rcases tbc with ⟨tb, c2⟩
          have hinj := Except.ok.inj h
          have h1 := (Prod.mk.injEq _ _ _ _ ▸ hinj).1
          have h2 : c2 = c1 := (Prod.mk.injEq _ _ _ _ ▸ hinj).2
          exact ⟨tb, by rw [h2], (Option.some.inj h1).symm⟩

theorem nullsAux_inv_some
    (recurse : Block → List Nat → Nat → Nat → Except Err (Block × Nat))
    (K : IFunction) (block : Block) (args : List Nat) (result n : Nat)
    (bb : Block) (c1 : Nat)
    (h : defaultImplementationForNullsAux recurse K block args result n
      = .ok (some bb, c1)) :
    (args.isEmpty || !K.useDefaultImplementationForNulls) = false
    ∧ (((getNullPresense block args).has_null_constant = true
        ∧ bb = setColumn block result
            (createColumnConstNull (getByPosition block result).type n))
      ∨ ((getNullPresense block args).has_null_constant = false
        ∧ (getNullPresense block args).has_nullable = true
        ∧ ∃ tb, recurse (createBlockWithNestedColumns block args) args result
              (blockRows (createBlockWithNestedColumns block args)) = .ok (tb, c1)
          ∧ bb = setColumn block result
              (wrapInNullable (columnAt tb result) block args result n))) := by
  simp only [defaultImplementationForNullsAux] at h
  by_cases he : (args.isEmpty || !K.useDefaultImplementationForNulls) = true
  · simp only [he, eq_self_iff_true, if_true, bind, Except.bind, pure, Except.pure] at h
    have h1 := (Prod.mk.injEq _ _ _ _ ▸ (Except.ok.inj h)).1
    exact Option.noConfusion h1
  · rw [Bool.not_eq_true] at he
    simp only [he, Bool.false_eq_true, if_false] at h
    refine ⟨he, ?_⟩
    by_cases hnc : (getNullPresense block args).has_null_constant = true
    · simp only [hnc, eq_self_iff_true, if_true, bind, Except.bind, pure, Except.pure] at h
      left
      have h1 := (Prod.mk.injEq _ _ _ _ ▸ (Except.ok.inj h)).1
      exact ⟨hnc, (Option.some.inj h1).symm⟩
    · rw [Bool.not_eq_true] at hnc
      simp only [hnc, Bool.false_eq_true, if_false] at h
      by_cases hnn : (getNullPresense block args).has_nullable = true
      · simp only [hnn, eq_self_iff_true, if_true] at h
        right
        refine ⟨hnc, hnn, ?_⟩
        rcases hr : recurse (createBlockWithNestedColumns block args) args result
            (blockRows (createBlockWithNestedColumns block args)) with e | tbc
        · rw [hr] at h
          simp only [bind, Except.bind] at h
          exact Except.noConfusion h
        · rw [hr] at h
          simp only [bind, Except.bind, pure, Except.pure] at h
          rcases tbc with ⟨tb, c2⟩
          have hinj := Except.ok.inj h
          have h1 := (Prod.mk.injEq _ _ _ _ ▸ hinj).1
          have h2 : c2 = c1 := (Prod.mk.injEq _ _ _ _ ▸ hinj).2
          exact ⟨tb, by rw [h2], (Option.some.inj h1).symm⟩
      · rw [Bool.not_eq_true] at hnn
        simp only [hnn, Bool.false_eq_true, if_false, pure, Except.pure] at h
        have h1 := (Prod.mk.injEq _ _ _ _ ▸ (Except.ok.inj h)).1
        exact Option.noConfusion h1

theorem nullsAux_inv_none
    (recurse : Block → List Nat → Nat → Nat → Except Err (Block × Nat))
    (K : IFunction) (block : Block) (args : List Nat) (result n : Nat) (c1 : Nat)
    (h : defaultImplementationForNullsAux recurse K block args result n
      = .ok (none, c1)) :
    (args.isEmpty || !K.useDefaultImplementationForNulls) = true
    ∨ ((getNullPresense block args).has_null_constant = false
      ∧ (getNullPresense block args).has_nullable = false) := by
  by_cases he : (args.isEmpty || !K.useDefaultImplementationForNulls) = true
  · exact Or.inl he
  · right
    rw [Bool.not_eq_true] at he
    simp only [defaultImplementationForNullsAux, he, Bool.false_eq_true, if_false] at h
    by_cases hnc : (getNullPresense block args).has_null_constant = true
    · simp only [hnc, eq_self_iff_true, if_true, bind, Except.bind, pure, Except.pure] at h
      have h1 := (Prod.mk.injEq _ _ _ _ ▸ (Except.ok.inj h)).1
      exact Option.noConfusion h1
    · rw [Bool.not_eq_true] at hnc
      refine ⟨hnc, ?_⟩
      simp only [hnc, Bool.false_eq_true, if_false] at h
      by_cases hnn : (getNullPresense block args).has_nullable = true
      · simp only [hnn, eq_self_iff_true, if_true] at h
        rcases hr : recurse (createBlockWithNestedColumns block args) args result
            (blockRows (createBlockWithNestedColumns block args)) with e | tbc
        · rw [hr] at h
          simp only [bind, Except.bind] at h
          exact Except.noConfusion h
        · rw [hr] at h
          rcases tbc with ⟨tb, c2⟩
          simp only [bind, Except.bind, pure, Except.pure] at h
          have h1 := (Prod.mk.injEq _ _ _ _ ▸ (Except.ok.inj h)).1
          exact Option.noConfusion h1
      · rw [Bool.not_eq_true] at hnn
        exact hnn

theorem any_map_general {α β : Type} (l : List α) (f : α → β) (p : β → Bool) :
    (l.map f).any p = l.any (fun x => p (f x)) := by
  induction l with
  | nil => rfl
  | cons a t ih => simp [ih]

theorem isEmpty_map {α β : Type} (l : List α) (f : α → β) :
    (l.map f).isEmpty = l.isEmpty := by
  cases l <;> rfl

theorem executeWithout_matches (K : IFunction) (g : List Val → Val)
    (himpl : K.executeImpl = pointwiseKernel g) :
    ∀ fuel block args result n b cnt,
      executeWithoutColumnsWithDictionary K fuel block args result n = .ok (b, cnt) →
      result ∉ args → result < block.length →
      (∀ a ∈ args, a < block.length) →
      (∀ a ∈ args, (getByPosition block a).type.WFt = true) →
      ((args.any (fun a => ((getByPosition block a).type.isNullable
          || (getByPosition block a).type.onlyNull))) = true →
        (getByPosition block result).type
          = rtSpecN K.useDefaultImplementationForNulls
              (args.map (fun a => (getByPosition block a).type))) →
      columnMatchesType (columnAt b result)
        (rtSpecN K.useDefaultImplementationForNulls
          (args.map (fun a => (getByPosition block a).type))) = true := by
  intro fuel
  induction fuel with
  | zero =>
      intro block args result n b cnt hrun
      exact absurd hrun (by simp [executeWithoutColumnsWithDictionary])
  | succ fuel ih =>
      intro block args result n b cnt hrun hresnot hreslt hargslt hWFt hslot
      simp only [executeWithoutColumnsWithDictionary] at hrun
      rcases hA : defaultImplementationForConstantArgumentsAux
          (executeWithoutColumnsWithDictionary K fuel) K block args result n with eA | ocA
      · rw [hA] at hrun
        simp only [bind, Except.bind] at hrun
        exact Except.noConfusion hrun
      · rw [hA] at hrun
        simp only [bind, Except.bind] at hrun
        rcases ocA with ⟨oc, c1⟩
        rcases oc with _ | bb
        · rcases hB : defaultImplementationForNullsAux
              (executeWithoutColumnsWithDictionary K fuel) K block args result n with eB | ocB
          · rw [hB] at hrun
            simp only [bind, Except.bind] at hrun
            exact Except.noConfusion hrun
          · rw [hB] at hrun
            simp only [bind, Except.bind] at hrun
            rcases ocB with ⟨ob, c2⟩
            rcases ob with _ | bb2
            · rw [himpl] at hrun
              have hpk : pointwiseKernel g block args result n
                  = .ok (setColumn block result (Column.dense
                      ((List.range (columnAt block (args.headD 0)).size).map
                        (fun i => g (args.map (fun a => (columnAt block a).valAt i)))))) := rfl
              rw [hpk] at hrun
              simp only [bind, Except.bind, pure, Except.pure] at hrun
              have hb := (Prod.mk.injEq _ _ _ _ ▸ (Except.ok.inj hrun)).1
              have hrt : rtSpecN K.useDefaultImplementationForNulls
                  (args.map (fun a => (getByPosition block a).type)) = DataType.base := by
                rcases nullsAux_inv_none _ K block args result n c2 hB with he | ⟨hnc, hnn⟩
                · rcases (show args.isEmpty = true ∨ K.useDefaultImplementationForNulls = false
                      by simpa using he) with h1 | h1
                  · rw [rtSpecN, if_neg (by simp [isEmpty_map, h1]),
                      if_neg (by simp [isEmpty_map, h1])]
                  · have h2 : K.useDefaultImplementationForNulls = false := by simpa using h1
                    rw [rtSpecN, if_neg (by simp [h2]), if_neg (by simp [h2])]
                · have h1 : (args.any fun a => (getByPosition block a).type.onlyNull)
                      = false := hnc
                  have h2 : (args.any fun a => (getByPosition block a).type.isNullable)
                      = false := hnn
                  rw [rtSpecN, if_neg (by simp [any_map_general, h1]),
                    if_neg (by simp [any_map_general, h2])]
              rw [← hb, columnAt_setColumn_self block result _ hreslt, hrt]
              rfl
            · have hbeq := (Prod.mk.injEq _ _ _ _ ▸ (Except.ok.inj hrun)).1
              obtain ⟨hne, hcase⟩ := nullsAux_inv_some _ K block args result n bb2 c2 hB
              have hneE : args.isEmpty = false ∧ K.useDefaultImplementationForNulls = true := by
                rcases Bool.or_eq_false_iff.mp hne with ⟨h1, h2⟩
                exact ⟨h1, by simpa using h2⟩
              rcases hcase with ⟨hnc, hbb⟩ | ⟨hnc, hnn, tb, hrec, hbb⟩
              · have hnc2 : (args.any fun a => (getByPosition block a).type.onlyNull)
                    = true := hnc
                have hany : (args.any (fun a => ((getByPosition block a).type.isNullable
                    || (getByPosition block a).type.onlyNull))) = true := by
                  rw [List.any_eq_true]
                  obtain ⟨a, ha, hp⟩ := List.any_eq_true.mp hnc2
                  exact ⟨a, ha, by simp [hp]⟩
                have hrt : rtSpecN K.useDefaultImplementationForNulls
                    (args.map (fun a => (getByPosition block a).type))
                    = DataType.nullable DataType.nothing := by
                  rw [rtSpecN, if_pos (by
                    simp [isEmpty_map, hneE.1, hneE.2, any_map_general, hnc2])]
                rw [← hbeq, hbb, columnAt_setColumn_self block result _ hreslt,
                  hslot hany, hrt]
                exact constnull_matches_nn n
              · have hnc2 : (args.any fun a => (getByPosition block a).type.onlyNull)
                    = false := hnc
                have hnn2 : (args.any fun a => (getByPosition block a).type.isNullable)
                    = true := hnn
                have hNBlen : (createBlockWithNestedColumns block args).length
                    = block.length := by
                  rw [createBlockWithNestedColumns]
                  simp
                have hNBres : getByPosition (createBlockWithNestedColumns block args) result
                    = getByPosition block result := by
                  rw [createBlockWithNestedColumns, getByPosition_rangeMap _ _ _ hreslt,
                    if_neg (by simpa using hresnot)]
                have hNBarg : ∀ a ∈ args,
                    getByPosition (createBlockWithNestedColumns block args) a
                      = denullEntry (getByPosition block a) := by
                  intro a ha
                  rw [createBlockWithNestedColumns,
                    getByPosition_rangeMap _ _ _ (hargslt a ha),
                    if_pos (contains_eq_true_of_mem ha)]
                have hnonull : ∀ a ∈ args, (getByPosition block a).type.onlyNull = false := by
                  intro a ha
                  simpa using List.any_eq_false.mp hnc2 a ha
                have hsub : ∀ a ∈ args,
                    ((getByPosition (createBlockWithNestedColumns block args) a).type.isNullable
                        = false
                      ∧ (getByPosition (createBlockWithNestedColumns block args) a).type.onlyNull
                        = false
                      ∧ (getByPosition (createBlockWithNestedColumns block args) a).type.WFt
                        = true) := by
                  intro a ha
                  rw [hNBarg a ha]
                  have hwf := hWFt a ha
                  have hno := hnonull a ha
                  rcases hty : (getByPosition block a).type with _ | _ | t | ⟨t, w⟩
                  · simp [denullEntry, hty, DataType.isNullable, DataType.onlyNull, DataType.WFt]
                  · rw [hty] at hno
                    exact absurd hno (by simp [DataType.onlyNull])
                  · rw [hty] at hwf hno
                    have hq : (denullEntry (getByPosition block a)).type = t := by
                      simp [denullEntry, hty]
                    rw [hq]
                    rcases t with _ | _ | s | ⟨s, w2⟩
                    · simp [DataType.isNullable, DataType.onlyNull, DataType.WFt]
                    · exact absurd hno (by simp [DataType.onlyNull, DataType.isNothingType])
                    · rw [DataType.WFt] at hwf
                      simp [DataType.isNullable] at hwf
                    · rw [DataType.WFt] at hwf
                      simp only [Bool.and_eq_true] at hwf
                      refine ⟨rfl, rfl, hwf.1.1⟩
                  · have hq : (denullEntry (getByPosition block a)).type
                        = DataType.withDict t w := by
                      simp [denullEntry, hty]
                    rw [hq]
                    rw [hty] at hwf
                    exact ⟨rfl, rfl, hwf⟩
                have hanyNB : (args.any (fun a =>
                    ((getByPosition (createBlockWithNestedColumns block args) a).type.isNullable
                      || (getByPosition (createBlockWithNestedColumns block args) a).type.onlyNull)))
                    = false := by
                  rw [List.any_eq_false]
                  intro a ha
                  obtain ⟨h1, h2, _⟩ := hsub a ha
                  simp [h1, h2]
                have hrtNB : rtSpecN K.useDefaultImplementationForNulls
                    (args.map (fun a =>
                      (getByPosition (createBlockWithNestedColumns block args) a).type))
                    = DataType.base := by
                  have h1 : (args.any fun a =>
                      (getByPosition (createBlockWithNestedColumns block args) a).type.onlyNull)
                      = false := by
                    rw [List.any_eq_false]
                    intro a ha
                    simp [(hsub a ha).2.1]
                  have h2 : (args.any fun a =>
                      (getByPosition (createBlockWithNestedColumns block args) a).type.isNullable)
                      = false := by
                    rw [List.any_eq_false]
                    intro a ha
                    simp [(hsub a ha).1]
                  rw [rtSpecN, if_neg (by simp [any_map_general, h1]),
                    if_neg (by simp [any_map_general, h2])]
                have hmatches := ih (createBlockWithNestedColumns block args) args result
                  (blockRows (createBlockWithNestedColumns block args)) tb c2 hrec hresnot
                  (by rw [hNBlen]; exact hreslt)
                  (by intro a ha; rw [hNBlen]; exact hargslt a ha)
                  (by intro a ha; exact (hsub a ha).2.2)
                  (by intro hx; exact absurd hx (by simp [hanyNB]))
                rw [hrtNB] at hmatches
                have hrt : rtSpecN K.useDefaultImplementationForNulls
                    (args.map (fun a => (getByPosition block a).type))
                    = DataType.nullable DataType.base := by
                  rw [rtSpecN, if_neg (by simp [any_map_general, hnc2]),
                    if_pos (by simp [isEmpty_map, hneE.1, hneE.2, any_map_general, hnn2])]
                have hany : (args.any (fun a => ((getByPosition block a).type.isNullable
                    || (getByPosition block a).type.onlyNull))) = true := by
                  rw [List.any_eq_true]
                  obtain ⟨a, ha, hp⟩ := List.any_eq_true.mp hnn2
                  exact ⟨a, ha, by simp [hp]⟩
                have hslot2 : (getByPosition block result).type
                    = DataType.nullable DataType.base := by
                  rw [hslot hany, hrt]
                rw [← hbeq, hbb, columnAt_setColumn_self block result _ hreslt, hrt]
                exact wrapInNullable_matches (columnAt tb result) block args result n
                  hmatches hslot2
        · have hbeq := (Prod.mk.injEq _ _ _ _ ▸ (Except.ok.inj hrun)).1
          obtain ⟨tb, hrec, hbb⟩ := constArgsAux_inv _ K block args result n bb c1 hA
          have hTBlen : ((List.range args.length).map
              (constArgsTempEntry block args K.getArgumentsThatAreAlwaysConstant)
              ++ [getByPosition block result]).length = args.length + 1 := by
            simp
          have hTBarg : ∀ k, k < args.length →
              getByPosition ((List.range args.length).map
                (constArgsTempEntry block args K.getArgumentsThatAreAlwaysConstant)
                ++ [getByPosition block result]) k
              = constArgsTempEntry block args K.getArgumentsThatAreAlwaysConstant k := by
            intro k hk
            rw [getByPosition_append_left _ _ _ (by simpa using hk),
              getByPosition_rangeMap _ _ _ hk]
          have hTBres : getByPosition ((List.range args.length).map
              (constArgsTempEntry block args K.getArgumentsThatAreAlwaysConstant)
              ++ [getByPosition block result]) args.length
              = getByPosition block result := by
            rw [getByPosition_append_right _ _ _ (by simp)]
            simp [getByPosition]
          have htypes : (List.range args.length).map (fun a =>
              (getByPosition ((List.range args.length).map
                (constArgsTempEntry block args K.getArgumentsThatAreAlwaysConstant)
                ++ [getByPosition block result]) a).type)
              = args.map (fun a => (getByPosition block a).type) := by
            have h1 : ∀ k ∈ List.range args.length,
                (getByPosition ((List.range args.length).map
                  (constArgsTempEntry block args K.getArgumentsThatAreAlwaysConstant)
                  ++ [getByPosition block result]) k).type
                = (getByPosition block (args.getD k 0)).type := by
              intro k hk
              rw [hTBarg k (List.mem_range.mp hk), constArgsTempEntry_type]
            rw [List.map_congr_left h1]
            exact rangeMap_getD args (fun a => (getByPosition block a).type) 0
          have hanytrans : ((List.range args.length).any (fun a =>
              ((getByPosition ((List.range args.length).map
                (constArgsTempEntry block args K.getArgumentsThatAreAlwaysConstant)
                ++ [getByPosition block result]) a).type.isNullable
              || (getByPosition ((List.range args.length).map
                (constArgsTempEntry block args K.getArgumentsThatAreAlwaysConstant)
                ++ [getByPosition block result]) a).type.onlyNull)))
              = (args.any (fun a => ((getByPosition block a).type.isNullable
                || (getByPosition block a).type.onlyNull))) := by
            rw [Bool.eq_iff_iff, List.any_eq_true, List.any_eq_true]
            constructor
            · rintro ⟨k, hk, hp⟩
              refine ⟨args.getD k 0, getD_mem args k 0 (List.mem_range.mp hk), ?_⟩
              rw [hTBarg k (List.mem_range.mp hk), constArgsTempEntry_type] at hp
              exact hp
            · rintro ⟨a, ha, hp⟩
              obtain ⟨k, hklt, hak⟩ := List.getElem_of_mem ha
              refine ⟨k, List.mem_range.mpr hklt, ?_⟩
              rw [hTBarg k hklt, constArgsTempEntry_type]
              have hgd : args.getD k 0 = a := by
                rw [List.getD_eq_getElem?_getD, List.getElem?_eq_getElem hklt,
                  Option.getD_some, hak]
              rw [hgd]
              exact hp
          have hmatches := ih ((List.range args.length).map
              (constArgsTempEntry block args K.getArgumentsThatAreAlwaysConstant)
              ++ [getByPosition block result]) (List.range args.length) args.length
            (blockRows ((List.range args.length).map
              (constArgsTempEntry block args K.getArgumentsThatAreAlwaysConstant)
              ++ [getByPosition block result])) tb c1 hrec
            (by simp)
            (by rw [hTBlen]; simp)
            (by intro a ha; rw [hTBlen]; exact Nat.lt_succ_of_lt (List.mem_range.mp ha))
            (by intro a ha
                rw [hTBarg a (List.mem_range.mp ha), constArgsTempEntry_type]
                exact hWFt _ (getD_mem args a 0 (List.mem_range.mp ha)))
            (by intro hx
                rw [hanytrans] at hx
                rw [hTBres, hslot hx, htypes])
          rw [htypes] at hmatches
          rw [← hbeq, hbb, columnAt_setColumn_self block result _ hreslt, matches_create]
          exact hmatches

/-- C1 (amended): for calls with no dictionary-encoded argument column and no
dictionary-declared argument type, a pointwise scalar kernel whose own
return-type computation is the base type, valid in-range positions with the
result slot outside the argument list, well-formed argument types, and the
caller storing getReturnType's output as the result slot's declared type:
whenever execute succeeds, the column it populates in the result slot
structurally matches the type getReturnType returned. -/
theorem C1_return_type_mirror (K : IFunction) (fuel : Nat) (block : Block)
    (args : List Nat) (result n : Nat) (g : List Val → Val) (b : Block) (cnt : Nat)
    (rt : DataType)
    (himpl : K.executeImpl = pointwiseKernel g)
    (hret : K.getReturnTypeImpl = fun _ => .ok DataType.base)
    (hnodicttype : args.all (fun a => !(getByPosition block a).type.isWithDict) = true)
    (hnodictcol : args.all (fun a => !(columnAt block a).isDictColumn) = true)
    (hWFt : ∀ a ∈ args, (getByPosition block a).type.WFt = true)
    (hargslt : ∀ a ∈ args, a < block.length)
    (hresnot : result ∉ args)
    (hreslt : result < block.length)
    (hrt : getReturnType K (args.map (fun a => getByPosition block a)) = .ok rt)
    (hslot : (getByPosition block result).type = rt)
    (hexec : execute K fuel block args result n = .ok (b, cnt)) :
    columnMatchesType (columnAt b result) rt = true := by
  have hnod : ((args.map (fun a => getByPosition block a)).any
      (fun a => a.type.isWithDict)) = false := by
    rw [any_map_general, List.any_eq_false]
    intro a ha
    simpa using List.all_eq_true.mp hnodicttype a ha
  have hrtw : getReturnTypeWithoutDictionary K (args.map (fun a => getByPosition block a))
      = .ok rt := by
    rw [getReturnType] at hrt
    by_cases hd : K.useDefaultImplementationForColumnsWithDictionary = true
    · simp only [hd, eq_self_iff_true, if_true, hnod, Bool.false_eq_true, if_false,
        bind, Except.bind, pure, Except.pure] at hrt
      exact hrt
    · rw [Bool.not_eq_true] at hd
      simp only [hd, Bool.false_eq_true, if_false, bind, Except.bind,
        pure, Except.pure] at hrt
      exact hrt
  have hrts := rtw_rtSpec K (args.map (fun a => getByPosition block a)) rt hret hrtw
  have hlist : (args.map (fun a => getByPosition block a)).map (fun e => e.type)
      = args.map (fun a => (getByPosition block a).type) := by
    rw [List.map_map]
    rfl
  rw [hlist] at hrts
  have hnodc : (args.any fun a => (columnAt block a).isDictColumn) = false := by
    rw [List.any_eq_false]
    intro a ha
    simpa using List.all_eq_true.mp hnodictcol a ha
  rw [execute_delegates K fuel block args result n hnodc] at hexec
  rw [hrts]
  exact executeWithout_matches K g himpl fuel block args result n b cnt hexec
    hresnot hreslt hargslt hWFt (fun _ => by rw [hslot, hrts])

/-- Counterexample for C1 as stated: with a constant argument column of
dictionary-declared type, getReturnType announces a dictionary type but the
runtime scan sees no dictionary column, so execute stores a plain dense column
that does not match the announced type. -/
theorem C1_counterexample :
    getReturnType K1c ([0].map (fun a => getByPosition block1 a))
      = .ok (DataType.withDict DataType.base 8)
    ∧ execute K1c 1 block1 [0] 1 3 = .ok (setColumn block1 1 (Column.dense [4, 4, 4]), 1)
    ∧ columnMatchesType (columnAt (setColumn block1 1 (Column.dense [4, 4, 4])) 1)
        (DataType.withDict DataType.base 8) = false :=
  ⟨rfl, rfl, rfl⟩

/-- Witness for the amended C1 at a concrete nullable batch. -/
theorem C1_return_type_mirror_witness :
    columnMatchesType
      (columnAt (setColumn block1w 1
        (Column.nullableCol (Column.dense [1, 2]) [false, true])) 1)
      (DataType.nullable DataType.base) = true :=
  C1_return_type_mirror K1w 2 block1w [0] 1 2 g3
    (setColumn block1w 1 (Column.nullableCol (Column.dense [1, 2]) [false, true])) 1
    (DataType.nullable DataType.base) rfl rfl rfl rfl (by decide) (by decide) (by decide)
    (by decide) rfl rfl rfl
